import Mathlib

/-!
Verification of the `sketch-document-py` generator and file reader/writer.

The Python sources are shallowly embedded:
* `sketch_document_py/sketch_file_format/scripts/utils.py`
  (`generate_field_name`, `DataClassBuilder` with `schema_to_ast_node` and
  friends) and `scripts/generate.py` (`map_definitions`, `all_classes`,
  `build_class_map`, `check_ann_assign_contains_union`,
  `insert_encoder_and_decoder_to_class`);
* `sketch_document_py/sketch_file/file.py` (`from_file`, `to_file`), with the
  generated `sketch_file_format` dataclasses (`Contents`, `ContentsDocument`,
  `Meta`, `Page`, `FileRef`), which are generated repository code not present
  under `src/`, modelled from the spec.

Python dictionaries are modelled as association lists in insertion order,
Python exceptions as `Except String`, and recursion over schemas with an
explicit fuel parameter (the Python recursion is over finite JSON values, so
any fuel exceeding the nesting depth is enough).
-/

namespace SketchPy

/-! ### Python keyword list (`keyword.kwlist` of CPython 3.x) -/

def kwlistPy : List String :=
  ["False", "None", "True", "and", "as", "assert", "async", "await",
   "break", "class", "continue", "def", "del", "elif", "else", "except",
   "finally", "for", "from", "global", "if",
   "in", "is", "lambda", "nonlocal", "not", "or", "pass",
   "raise", "return", "try", "while", "with", "yield"] ++ [String.mk ['i', 'm', 'p', 'o', 'r', 't']]

/-! ### `generate_field_name` (utils.py lines 36-45)

`new_key = key` ; strip leading underscores with a while loop; then
`while new_key in [*other_fields, *kwlist]: new_key += '_'`.

The second while loop is embedded with fuel: each iteration appends one
character, so candidates strictly grow in length and at most
`forbidden.length` of them can be members of `forbidden`; fuel
`forbidden.length + 1` is therefore always enough (proved below). -/

def stripLeadingUnderscores (key : String) : String :=
  String.mk (key.data.dropWhile (· = '_'))

def mintAvoid (forbidden : List String) : Nat → String → String
  | 0, s => s
  | n + 1, s => if s ∈ forbidden then mintAvoid forbidden n (s ++ "_") else s

def generate_field_name (key : String) (other_fields : List String) : String :=
  let forbidden := other_fields ++ kwlistPy
  mintAvoid forbidden (forbidden.length + 1) (stripLeadingUnderscores key)

/-! Fuel-sufficiency argument for `mintAvoid`. -/

theorem countP_succ_lt_of_mem {l : List String} {s : String} (h : s ∈ l) :
    l.countP (fun t => decide (s.length + 1 ≤ t.length)) <
      l.countP (fun t => decide (s.length ≤ t.length)) := by
  induction l with
  | nil => cases h
  | cons x xs ih =>
    have hmono : xs.countP (fun t => decide (s.length + 1 ≤ t.length)) ≤
        xs.countP (fun t => decide (s.length ≤ t.length)) :=
      List.countP_mono_left (fun a _ hp => by simp at hp ⊢; omega)
    rcases List.mem_cons.mp h with rfl | hx
    · have h1 : ¬ (s.length + 1 ≤ s.length) := by omega
      simp [List.countP_cons, h1]
      omega
    · have hx' := ih hx
      by_cases h2 : s.length + 1 ≤ x.length
      · have h3 : s.length ≤ x.length := by omega
        simp [List.countP_cons, h2, h3]
        omega
      · by_cases h3 : s.length ≤ x.length
        · simp [List.countP_cons, h2, h3]
          omega
        · simp [List.countP_cons, h2, h3]
          omega

theorem mintAvoid_not_mem (forbidden : List String) :
    ∀ (fuel : Nat) (s : String),
      forbidden.countP (fun t => decide (s.length ≤ t.length)) < fuel →
      mintAvoid forbidden fuel s ∉ forbidden := by
  intro fuel
  induction fuel with
  | zero => intro s h; omega
  | succ n ih =>
    intro s h
    rw [mintAvoid]
    split
    · next hmem =>
      apply ih
      have hlt := countP_succ_lt_of_mem hmem
      have hlen : (s ++ "_").length = s.length + 1 := by
        rw [String.length_append]
        rfl
      rw [hlen]
      omega
    · next hmem => exact hmem

theorem generate_field_name_not_mem (key : String) (other_fields : List String) :
    generate_field_name key other_fields ∉ other_fields ++ kwlistPy := by
  apply mintAvoid_not_mem
  calc (other_fields ++ kwlistPy).countP
        (fun t => decide ((stripLeadingUnderscores key).length ≤ t.length))
      ≤ (other_fields ++ kwlistPy).length := List.countP_le_length _
    _ < (other_fields ++ kwlistPy).length + 1 := Nat.lt_succ_self _

/-- **C6** — `generate_field_name(key, siblings)` strips every leading
underscore from `key`, then appends underscores while the candidate collides
with a sibling name or a Python reserved keyword; consequently the returned
name is never a Python keyword and never equal to any sibling field name, and
it is a pure function of `(key, siblings)`. -/
theorem C6_generate_field_name_sound (key : String) (siblings : List String) :
    generate_field_name key siblings ∉ kwlistPy ∧
      (∀ o ∈ siblings, generate_field_name key siblings ≠ o) ∧
      generate_field_name key siblings =
        mintAvoid (siblings ++ kwlistPy) ((siblings ++ kwlistPy).length + 1)
          (stripLeadingUnderscores key) := by
  have h := generate_field_name_not_mem key siblings
  rw [List.mem_append] at h
  push_neg at h
  exact ⟨h.2, fun o ho he => h.1 (he ▸ ho), rfl⟩

/-! ### JSON values

Schemas and file members are Python values produced by `json.loads`: `None`,
`bool`, `int`, `float`, `str`, `list`, `dict`.  Dicts are association lists in
insertion order (`json.loads` never produces duplicate keys; model code keeps
first-occurrence semantics for lookup and in-place update, as Python does).
Floats are carried by their literal text: the generator never computes with
numbers, it only embeds them in code. -/

inductive Json where
  | null
  | jb (b : Bool)
  | ji (n : Int)
  | jf (txt : String)
  | js (s : String)
  | jarr (xs : List Json)
  | jobj (kvs : List (String × Json))
deriving Repr

namespace Json

/-- `d.get(k)` for a Python dict (first occurrence). -/
def get? : Json → String → Option Json
  | jobj kvs, k => kvs.lookup k
  | _, _ => none

/-- `k in d` for a Python dict. -/
def hasKey (j : Json) (k : String) : Bool := (j.get? k).isSome

/-- `d[k] = v` for a Python dict: replace the value at the (first occurrence
of) key `k` in place, else append the pair at the end. On non-dicts this is a
no-op (Python would raise; no modelled code path reaches that case). -/
def setKey : Json → String → Json → Json
  | jobj kvs, k, v => jobj (go kvs k v)
  | j, _, _ => j
where go : List (String × Json) → String → Json → List (String × Json)
  | [], k, v => [(k, v)]
  | (k', v') :: rest, k, v =>
      if k' = k then (k, v) :: rest else (k', v') :: go rest k v

/-- Python `str(x)` on JSON scalars (`str` of containers is only used through
`map_definitions` on `const` values, which realistic schemas keep scalar; the
container rendering here is a best-effort stand-in). -/
def pyStr : Json → String
  | null => "None"
  | jb true => "True"
  | jb false => "False"
  | ji n => toString n
  | jf t => t
  | js s => s
  | jarr _ => "<list>"
  | jobj _ => "<dict>"

/-- Python iteration `for x in j`: lists yield their elements, dicts their
keys (as strings), strings their characters; scalars raise `TypeError`. -/
def pyIter : Json → Except String (List Json)
  | jarr xs => .ok xs
  | jobj kvs => .ok (kvs.map (fun kv => js kv.1))
  | js s => .ok (s.data.map (fun c => js (String.mk [c])))
  | _ => .error "TypeError: not iterable"

end Json

/-! ### Target-language AST (the `ast` nodes the generator builds) -/

inductive PyAst where
  /-- `ast.Name(id)` -/
  | pyName (id : String)
  /-- `ast.Constant(value)` -/
  | pyConst (v : Json)
  /-- `ast.Subscript(value, slice)` -/
  | subscript (value : PyAst) (slice : PyAst)
  /-- `ast.Tuple(elts)` -/
  | pyTuple (elts : List PyAst)
  /-- `ast.Call(func, args, keywords)`; every keyword here is named -/
  | pyCall (func : PyAst) (args : List PyAst) (keywords : List (String × PyAst))
  /-- `ast.Dict(keys, values)` -/
  | pyDict (keys : List PyAst) (values : List PyAst)
  /-- `ast.Lambda` with one argument -/
  | pyLambda (arg : String) (body : PyAst)
  /-- `ast.ListComp` with a single generator `for var in iter` -/
  | listComp (elt : PyAst) (var : String) (iter : PyAst)
  /-- `ast.AnnAssign(target=Name, annotation, value, simple=1)` -/
  | annAssign (target : String) (ann : PyAst) (value : Option PyAst)
  /-- `ast.Assign([Name], value)` -/
  | assign (target : String) (value : PyAst)
  /-- `ast.ClassDef(name, bases, decorator_list, body)` -/
  | classDef (name : String) (bases : List String) (decorators : List String)
      (body : List PyAst)
deriving Repr

/-! ### Association-list insert with Python `d[k] = v` semantics -/

def upsert {α : Type} : List (String × α) → String → α → List (String × α)
  | [], k, v => [(k, v)]
  | (k', v') :: rest, k, v =>
      if k' = k then (k, v) :: rest else (k', v') :: upsert rest k v

/-! ### `DataClassBuilder` state (utils.py lines 107-153)

`import_statements` is a dict `module → import node`; the `typing` entry
carries a growing list of names, the other three entries are fixed nodes, so
they are modelled as the inserted name list plus presence flags.
`class_dict` maps identifier → (schema, declaration) in insertion order. -/

structure Builder where
  /-- names of the `from typing import ...` entry, in insertion order -/
  typingImports : List String := []
  /-- `from enum import Enum` present -/
  hasEnumImport : Bool := false
  /-- `from dataclasses import dataclass, field` present -/
  hasDataclassesImport : Bool := false
  /-- `from fastclasses_json import dataclass_json, JSONMixin` present -/
  hasFastclassesImport : Bool := false
  /-- `class_dict`: identifier → (schema, declaration) -/
  classDict : List (String × Json × PyAst) := []
deriving Repr

namespace Builder

def check_typing_import (b : Builder) (name : String) : Builder :=
  if name ∈ ["int", "str", "float", "bool", "None"] then b
  else if name ∈ b.typingImports then b
  else { b with typingImports := b.typingImports ++ [name] }

def check_enum_import (b : Builder) : Builder := { b with hasEnumImport := true }

def check_dataclasses_import (b : Builder) : Builder :=
  { b with hasDataclassesImport := true }

def check_fastclasses_json_import (b : Builder) : Builder :=
  { b.check_dataclasses_import with hasFastclassesImport := true }

def create_literal (b : Builder) (value : Json) : Builder × PyAst :=
  (b.check_typing_import "Literal",
   .subscript (.pyName "Literal") (.pyConst value))

/-- `create_union`: `Union[...]` when more than one node, else `nodes[0]`
(which raises `IndexError` on an empty list). -/
def create_union (b : Builder) (nodes : List PyAst) : Except String (Builder × PyAst) :=
  if nodes.length > 1 then
    .ok (b.check_typing_import "Union",
         .subscript (.pyName "Union") (.pyTuple nodes))
  else
    match nodes with
    | [] => .error "IndexError: list index out of range"
    | n :: _ => .ok (b, n)

def create_optional (b : Builder) (node : PyAst) : Builder × PyAst :=
  (b.check_typing_import "Optional",
   .subscript (.pyName "Optional") node)

def create_list (b : Builder) (node : PyAst) : Builder × PyAst :=
  (b.check_typing_import "List",
   .subscript (.pyName "List") node)

def create_dict (b : Builder) (key : String) (value : PyAst) : Builder × PyAst :=
  let b := (b.check_typing_import "Dict").check_typing_import key
  let b := match value with
    | .pyName id => b.check_typing_import id
    | _ => b
  (b, .subscript (.pyName "Dict") (.pyTuple [.pyName key, value]))

def create_any (b : Builder) : Builder × PyAst :=
  (b.check_typing_import "Any", .pyName "Any")

/-- `key[0].upper() + key[1:]` (on an empty key Python raises `IndexError`;
no claim exercises that corner and the model keeps the empty string). -/
def capitalizeFirst (key : String) : String :=
  match key.data with
  | [] => ""
  | c :: cs => String.mk (c.toUpper :: cs)

/-- `generate_class_name_from_key` (utils.py lines 226-233): capitalize the
first character, then append `_` while the candidate is already a key of
`class_dict`.  The while loop is the same fuel-bounded mint as for field
names. -/
def generate_class_name_from_key (b : Builder) (key : String) : String :=
  let forbidden := b.classDict.map Prod.fst
  mintAvoid forbidden (forbidden.length + 1) (capitalizeFirst key)

end Builder

/-! ### Python `sorted(..., key=f)` with a `Nat`-valued key

CPython's `sorted` is a stable sort.  `pyStableSort` is the textbook stable
insertion sort: an element is inserted before the first element whose key is
`≥` its own, so elements with equal keys keep their relative order. -/

def pyOrderedInsert {α : Type} (f : α → Nat) (x : α) : List α → List α
  | [] => [x]
  | y :: ys => if f x ≤ f y then x :: y :: ys else y :: pyOrderedInsert f x ys

def pyStableSort {α : Type} (f : α → Nat) : List α → List α
  | [] => []
  | x :: xs => pyOrderedInsert f x (pyStableSort f xs)

/-- `required.index(k) if k in required else len(required)` — the sort key
used on `properties.items()`.  `required` is kept as the raw JSON list;
Python `in` / `.index` compare with `==`, which on a string key only matches
string elements. -/
def reqSortKey (required : List Json) (k : String) : Nat :=
  let idx := required.findIdx (fun e => match e with | .js s => s = k | _ => false)
  idx  -- findIdx returns `required.length` when no element matches, exactly Python's fallback branch

/-- membership of a string key in the JSON `required` list (Python `in`). -/
def reqMem (required : List Json) (k : String) : Bool :=
  required.any (fun e => match e with | .js s => s = k | _ => false)

/-- The property sort performed by `schema_to_ast_node` (utils.py 281-283). -/
def sortProps (required : List Json) (props : List (String × Json)) :
    List (String × Json) :=
  pyStableSort (fun p => reqSortKey required p.1) props

/-- `schema.get('required', [])`; a non-list value is outside the model (the
later `in`/`.index` calls would behave differently on it; schemas keep it a
list). -/
def requiredOf (schema : Json) : List Json :=
  match schema.get? "required" with
  | some (.jarr req) => req
  | _ => []

/-! ### `schema_to_ast_node` (utils.py lines 235-379)

The Python function is recursive over a finite JSON value; the embedding
takes an explicit fuel parameter which any bound above the schema's nesting
depth satisfies.  Raised exceptions (`enum not supported for number`,
`Unsupported const value`, `IndexError` from `create_union([])`,
`TypeError`/`AttributeError` from operating on non-dict schema nodes) are
`.error` results. -/

/-- `d.get(k) is not None`-style access: a JSON `null` value behaves like an
absent key, exactly as in Python. -/
def Json.getNonNull? (j : Json) (k : String) : Option Json :=
  match j.get? k with
  | some .null => none
  | some v => some v
  | none => none

def extract_id (id_ : String) : String := id_.replace "#" ""

def extract_ref (ref : String) : String :=
  (ref.replace "#" "").replace "/definitions/" ""

/-- the union-of-`Literal` built for `string`/`integer`/`boolean` enums -/
def foldLiterals (b : Builder) : List Json → Builder × List PyAst
  | [] => (b, [])
  | v :: vs =>
      let p := b.create_literal v
      let r := foldLiterals p.1 vs
      (r.1, p.2 :: r.2)

/-- targets of the `ast.AnnAssign` elements accumulated so far (the sibling
names passed to `generate_field_name`) -/
def targetsOfElements (elements : List PyAst) : List String :=
  elements.filterMap (fun e =>
    match e with
    | .annAssign t _ _ => some t
    | _ => none)

/-- `field(metadata={"fastclasses_json": {"field_name": key}})` -/
def fieldNameCall (key : String) : PyAst :=
  .pyCall (.pyName "field") []
    [("metadata",
      .pyDict [.pyConst (.js "fastclasses_json")]
              [.pyDict [.pyConst (.js "field_name")] [.pyConst (.js key)]])]

/-- everything the loop body of utils.py 285-323 does after translating the
sub-schema: mint the field name against the accumulated siblings, wrap the
annotation in `Optional` when not required, attach the rename metadata call,
and set the `None` default (as `default=` when the value is already a call) -/
def mkFieldStep (required : List Json) (b : Builder) (elements : List PyAst)
    (key : String) (annot : PyAst) : Builder × PyAst :=
  let new_key := generate_field_name key (targetsOfElements elements)
  let inRequired := reqMem required key
  let ba := if inRequired then (b, annot) else b.create_optional annot
  let v0 : Option PyAst := if new_key ≠ key then some (fieldNameCall key) else none
  let v1 : Option PyAst :=
    if inRequired then v0
    else
      match v0 with
      | some (.pyCall f args kws) =>
          some (.pyCall f args (kws ++ [("default", .pyConst .null)]))
      | _ => some (.pyConst .null)
  (ba.1, .annAssign new_key ba.2 v1)

/-- the body of the `for key, value in properties.items()` loop
(utils.py 285-323); `recur` is `schema_to_ast_node` at the remaining fuel -/
def buildFields
    (recur : Builder → String → Json → Bool → Except String (Builder × PyAst))
    (required : List Json) :
    Builder → List PyAst → List (String × Json) →
      Except String (Builder × List PyAst)
  | b, elements, [] => .ok (b, elements)
  | b, elements, (key, value) :: rest => do
      let (b, annot) ← recur b key value false
      let s := mkFieldStep required b elements key annot
      buildFields recur required s.1 (elements ++ [s.2]) rest

/-- builder-threaded translation of `patternProperties.values()` -/
def mapKeyedSchemas
    (recur : Builder → String → Json → Bool → Except String (Builder × PyAst)) :
    Builder → List (String × Json) → Except String (Builder × List PyAst)
  | b, [] => .ok (b, [])
  | b, (k, v) :: rest => do
      let (b, node) ← recur b k v false
      let (b, nodes) ← mapKeyedSchemas recur b rest
      .ok (b, node :: nodes)

/-- builder-threaded translation of the `oneOf` members -/
def mapIterSchemas
    (recur : Builder → String → Json → Bool → Except String (Builder × PyAst))
    (ident : String) :
    Builder → List Json → Except String (Builder × List PyAst)
  | b, [] => .ok (b, [])
  | b, v :: rest => do
      let (b, node) ← recur b ident v false
      let (b, nodes) ← mapIterSchemas recur ident b rest
      .ok (b, node :: nodes)

def schema_to_ast_node :
    Nat → Builder → String → Json → Bool → Except String (Builder × PyAst)
  | 0, _, _, _, _ => .error "recursion limit exceeded"
  | fuel + 1, b, identifier, schema, is_top_level =>
    match schema with
    | .jobj _ =>
      match schema.get? "type" with
      | some (.js "string") =>
          match schema.getNonNull? "enum" with
          | some e => do
              let vals ← e.pyIter
              let p := foldLiterals b vals
              p.1.create_union p.2
          | none => .ok (b, .pyName "str")
      | some (.js "number") =>
          match schema.getNonNull? "enum" with
          | some _ => .error "enum not supported for number"
          | none => .ok (b, .pyName "float")
      | some (.js "integer") =>
          match schema.getNonNull? "enum" with
          | some e => do
              let vals ← e.pyIter
              let p := foldLiterals b vals
              p.1.create_union p.2
          | none => .ok (b, .pyName "int")
      | some (.js "boolean") =>
          match schema.getNonNull? "enum" with
          | some e => do
              let vals ← e.pyIter
              let p := foldLiterals b vals
              p.1.create_union p.2
          | none => .ok (b, .pyName "bool")
      | some (.js "null") => .ok (b.create_literal .null)
      | some (.js "object") =>
          match schema.get? "properties" with
          | some (.jobj props) =>
              let required : List Json := requiredOf schema
              if (match schema.get? "additionalProperties" with
                  | some (.jb true) => true
                  | _ => false) then
                .ok (b.create_dict "str" (.pyName "Any"))
              else do
                let sorted := sortProps required props
                let (b, elements) ←
                  buildFields (schema_to_ast_node fuel) required b [] sorted
                let b := b.check_fastclasses_json_import
                let new_identifier :=
                  if is_top_level then identifier
                  else b.generate_class_name_from_key identifier
                let class_def : PyAst :=
                  .classDef new_identifier ["JSONMixin"]
                    ["dataclass_json", "dataclass"] elements
                if is_top_level then .ok (b, class_def)
                else
                  .ok ({ b with classDict :=
                          upsert b.classDict new_identifier (schema, class_def) },
                       .pyConst (.js new_identifier))
          | _ =>
            match schema.get? "patternProperties" with
            | some (.jobj pats) => do
                let (b, nodes) ← mapKeyedSchemas (schema_to_ast_node fuel) b pats
                let (b, un) ← b.create_union nodes
                .ok (b.create_dict "str" un)
            | _ => .ok b.create_any
      | some (.js "array") =>
          match schema.get? "items" with
          | some (.jobj items) => do
              let (b, node) ←
                schema_to_ast_node fuel b identifier (.jobj items) false
              .ok (b.create_list node)
          | _ =>
              let p := b.create_any
              .ok (p.1.create_list p.2)
      | _ =>
          match schema.getNonNull? "const" with
          | some c =>
              match c with
              | .js _ | .ji _ | .jf _ => .ok (b.create_literal c)
              | _ => .error "Unsupported const value"
          | none =>
            match schema.getNonNull? "$ref" with
            | some r =>
                match r with
                | .js ref =>
                    if is_top_level then .ok (b, .pyName (extract_ref ref))
                    else .ok (b, .pyConst (.js (extract_ref ref)))
                | _ => .error "AttributeError: replace on non-string"
            | none =>
              match schema.getNonNull? "oneOf" with
              | some one => do
                  let items ← one.pyIter
                  let (b, nodes) ←
                    mapIterSchemas (schema_to_ast_node fuel)
                      ("OneOf$" ++ identifier) b items
                  b.create_union nodes
              | none => .ok b.create_any
    | _ => .error "AttributeError: get on non-dict schema"

/-! ### `generate.py` (sketch_document_py variant)

`map_definitions`, `all_classes`, `class_values`, `build_class_map`,
`check_ann_assign_contains_union` and `insert_encoder_and_decoder_to_class`.

`all_classes` is `list(set(sorted(...)))` in the source.  The iteration order
of a CPython `set` of strings depends on the interpreter's randomized string
hash (`PYTHONHASHSEED`), so the embedding takes the set-to-list conversion as
a parameter `σ`; an *admissible* `σ` returns a duplicate-free list with the
same members as its input, which is everything CPython guarantees. -/

/-- `map_definitions` (generate.py 60-62): the `_class` const of an object
schema rendered with `str`, else the empty string. -/
def map_definitions (schema : Json) : String :=
  match schema.get? "properties" with
  | some props =>
      match props.get? "_class" with
      | some (.jobj kk) =>
          match (Json.jobj kk).get? "const" with
          | some c => c.pyStr
          | none => ""
      | _ => ""
  | none => ""

/-- lexicographic `≤` on code points — Python's `str` ordering -/
def chLe : List Char → List Char → Bool
  | [], _ => true
  | _ :: _, [] => false
  | a :: as, b :: bs =>
      if a.toNat < b.toNat then true
      else if b.toNat < a.toNat then false
      else chLe as bs

def strLe (a b : String) : Bool := chLe a.data b.data

def insertStr (x : String) : List String → List String
  | [] => [x]
  | y :: ys => if strLe x y then x :: y :: ys else y :: insertStr x ys

/-- Python `sorted` on a list of strings (stable insertion sort; stability is
irrelevant here as `strLe` is total and antisymmetric). -/
def sortStrings : List String → List String
  | [] => []
  | x :: xs => insertStr x (sortStrings xs)

/-- `all_classes = list(set(sorted([...])))` (generate.py 64-71). -/
def all_classes (σ : List String → List String)
    (definitions : List (String × Json)) : List String :=
  σ (sortStrings
      (((definitions.map (fun d => map_definitions d.2)).filter
          (fun k => k.length > 0))))

/-- `σ` behaves like CPython `list(set(·))` on the list it is applied to. -/
def AdmissibleSetOrder (σ : List String → List String) (l : List String) : Prop :=
  (σ l).Nodup ∧ ∀ x, x ∈ σ l ↔ x ∈ l

/-- the synthetic `class_values` schema (generate.py 73-78) -/
def class_values (σ : List String → List String)
    (definitions : List (String × Json)) : Json :=
  .jobj [("description", .js "Enum of all possible _class property values"),
         ("$id", .js "#ClassValue"),
         ("enum", .jarr ((all_classes σ definitions).map .js)),
         ("enumDescriptions", .jarr ((all_classes σ definitions).map .js))]

/-- the match test of the inner loop of `build_class_map` (generate.py 97-99):
`type(klass) is dict and 'const' in klass and klass['const'] == sketch_class`
(and `type(schema) is dict`, true for every dict input). -/
def classConstMatches (schema : Json) (sketch_class : String) : Bool :=
  match schema.get? "properties" with
  | some props =>
      match props.get? "_class" with
      | some (.jobj kk) =>
          match (Json.jobj kk).get? "const" with
          | some (.js s) => s = sketch_class
          | _ => false
      | _ => false
  | none => false

/-- one iteration of the outer loop of `build_class_map`: bind
`sketch_class` to `extract_id` of the `$id` of the first matching definition
(`break`), or leave the map unchanged when no definition matches.  A missing
`$id` on the matching schema raises `KeyError`, a non-string one
`AttributeError`. -/
def classMapStep (definitions : List (String × Json))
    (acc : List (String × String)) (c : String) :
    Except String (List (String × String)) :=
  match definitions.find? (fun d => classConstMatches d.2 c) with
  | some d =>
      match d.2.get? "$id" with
      | some (.js i) => .ok (upsert acc c (extract_id i))
      | some _ => .error "AttributeError: replace on non-string"
      | none => .error "KeyError: $id"
  | none => .ok acc

/-- `build_class_map` (generate.py 93-101). -/
def build_class_map (σ : List String → List String)
    (definitions : List (String × Json)) :
    Except String (List (String × String)) :=
  (all_classes σ definitions).foldlM (classMapStep definitions) []

/-! #### `check_ann_assign_contains_union` (generate.py 193-221) -/

inductive UnionAnnAssignType where
  | UNION | LIST_UNION | OPTIONAL_UNION | NOT_UNION
deriving DecidableEq, Repr

def check_subscript : PyAst → UnionAnnAssignType
  | .subscript (.pyName id) sl =>
      if id = "Union" then .UNION
      else if id = "List" then
        match sl with
        | .subscript v s =>
            if check_subscript (.subscript v s) = .UNION then .LIST_UNION
            else .NOT_UNION
        | _ => .NOT_UNION
      else if id = "Optional" then
        match sl with
        | .subscript v s =>
            if check_subscript (.subscript v s) = .UNION then .OPTIONAL_UNION
            else .NOT_UNION
        | _ => .NOT_UNION
      else .NOT_UNION
  | _ => .NOT_UNION

def check_ann_assign_contains_union : PyAst → UnionAnnAssignType
  | .annAssign _ ann _ =>
      match ann with
      | .subscript v s => check_subscript (.subscript v s)
      | _ => .NOT_UNION
  | _ => .NOT_UNION

/-! #### `insert_encoder_and_decoder_to_class` (generate.py 128-168) -/

def to_object_call : PyAst := .pyName "to_object"

/-- `lambda lst: [to_object(x) for x in lst]` parsed -/
def list_to_object_lambda : PyAst :=
  .pyLambda "lst"
    (.listComp (.pyCall (.pyName "to_object") [.pyName "x"] []) "x" (.pyName "lst"))

/-- `field(metadata={"fastclasses_json": {}})` parsed -/
def emptyFcFieldCall : PyAst :=
  .pyCall (.pyName "field") []
    [("metadata", .pyDict [.pyConst (.js "fastclasses_json")] [.pyDict [] []])]

/-- index of the first `"fastclasses_json"`-keyed dict entry of an
`ast.Dict` (the inner `for key, value in zip(...)` with `break`) -/
def dictFirstFcIdx : List PyAst → List PyAst → Option Nat
  | k :: ks, v :: vs =>
      match k, v with
      | .pyConst (.js s), .pyDict _ _ =>
          if s = "fastclasses_json" then some 0
          else (dictFirstFcIdx ks vs).map (· + 1)
      | _, _ => (dictFirstFcIdx ks vs).map (· + 1)
  | _, _ => none

/-- does a keyword hold a metadata dict containing a fastclasses sub-dict? -/
def kwHasFc (kw : String × PyAst) : Bool :=
  kw.1 = "metadata" &&
    (match kw.2 with
     | .pyDict ks vs => (dictFirstFcIdx ks vs).isSome
     | _ => false)

def lastIdxWhere {α : Type} (p : α → Bool) (l : List α) : Option Nat :=
  match l.reverse.findIdx? p with
  | some i => some (l.length - 1 - i)
  | none => none

/-- append `'decoder': dec` to the fastclasses sub-dict of a metadata dict -/
def appendToFcDict (v : PyAst) (dec : PyAst) : PyAst :=
  match v with
  | .pyDict ks vs =>
      match dictFirstFcIdx ks vs with
      | some i =>
          .pyDict ks
            (vs.mapIdx (fun j inner =>
              if j = i then
                match inner with
                | .pyDict fk fv =>
                    .pyDict (fk ++ [.pyConst (.js "decoder")]) (fv ++ [dec])
                | other => other
              else inner))
      | none => v
  | _ => v

/-- the loop body of `insert_encoder_and_decoder_to_class` acting on one
field value: wrap a non-call value into a fresh `field(...)` call (keeping a
previous default as `default=`), then append the decoder to the fastclasses
sub-dict of the last metadata keyword that has one. -/
def wireValue (dec : PyAst) (old : Option PyAst) : PyAst :=
  let new_value :=
    match old with
    | some (.pyCall f args kws) => PyAst.pyCall f args kws
    | _ => emptyFcFieldCall
  let new_value :=
    match old, new_value with
    | some (.pyCall _ _ _), _ => new_value
    | some o, .pyCall f args kws => .pyCall f args (kws ++ [("default", o)])
    | _, _ => new_value
  match new_value with
  | .pyCall f args kws =>
      match lastIdxWhere kwHasFc kws with
      | some i =>
          .pyCall f args
            (kws.mapIdx (fun j kw =>
              if j = i then (kw.1, appendToFcDict kw.2 dec) else kw))
      | none => new_value
  | _ => new_value

/-- one `AnnAssign` element as processed by the wiring loop. -/
def wireField (e : PyAst) : PyAst :=
  match e with
  | .annAssign target ann value =>
      let ut := check_ann_assign_contains_union (.annAssign target ann value)
      if ut = .NOT_UNION then .annAssign target ann value
      else
        let dec := if ut = .LIST_UNION then list_to_object_lambda else to_object_call
        .annAssign target ann (some (wireValue dec value))
  | other => other

def insert_encoder_and_decoder_to_class (b : Builder) : Builder :=
  { b with classDict :=
      b.classDict.map (fun entry =>
        match entry with
        | (i, s, .classDef n bs decos body) =>
            (i, s, PyAst.classDef n bs decos (body.map wireField))
        | other => other) }

/-! ### `sketch_file/file.py` — packaged-file reader and writer

A zip archive is a list of `(member name, parsed JSON payload)` pairs in
write order.  `ZipFile.read(name)` resolves a name through `NameToInfo`,
which is overwritten as entries are scanned, so on duplicate member names the
last entry wins; `namelist()` yields all entries in order.  The JSON
serialize/parse layer (`json.dumps`/`json.loads`) is dropped: members hold
the parsed values (the two functions are mutually inverse on these values).

The generated dataclasses `Contents`, `ContentsDocument`, `Meta`, `Page`,
`FileRef` are repository code not present under `src/`.  Modelled from the
spec: a `ContentsDocument`/`Meta` value is carried as its JSON dict
(`to_dict` is the identity, `from_dict` accepts any dict), a page is its JSON
dict whose `do_objectID` entry is the page's id, and `FileRef(...).to_dict()`
is `{_class: MSJSONFileReference, _ref_class: MSImmutablePage, _ref: ...}`. -/

def zipRead? (z : List (String × Json)) (name : String) : Option Json :=
  z.reverse.lookup name

def zipNames (z : List (String × Json)) : List String := z.map Prod.fst

/-- Python dict comprehension: later bindings of the same key overwrite in
place. -/
def pyDictOfList (l : List (String × Json)) : List (String × Json) :=
  l.foldl (fun acc kv => upsert acc kv.1 kv.2) []

/-- Modelled from the spec: `FileRef(class_='MSJSONFileReference',
ref=..., ref_class='MSImmutablePage').to_dict()`. -/
def fileRefDict (ref : String) : Json :=
  .jobj [("_class", .js "MSJSONFileReference"),
         ("_ref_class", .js "MSImmutablePage"),
         ("_ref", .js ref)]

/-- Modelled from the spec: `document.pages` of the generated
`ContentsDocument` — the `pages` entry of its dict form. -/
def docPages (document : Json) : List Json :=
  match document.get? "pages" with
  | some (.jarr ps) => ps
  | _ => []

/-- Modelled from the spec: `page.do_objectID` of the generated `Page` — the
`do_objectID` entry of its dict form. -/
def pageDoId (page : Json) : String :=
  match page.get? "do_objectID" with
  | some (.js s) => s
  | _ => ""

/-- `Contents(document, meta, user, workspace)` of the generated module. -/
structure Contents where
  document : Json
  meta : Json
  user : Json
  workspace : List (String × Json)
deriving Repr

structure SketchFile where
  filepath : String
  contents : Contents
deriving Repr

/-- `str.startswith` / `str.endswith` on whole strings. -/
def pyStartsWith (s pre : String) : Bool := pre.data.isPrefixOf s.data

def pyEndsWith (s suf : String) : Bool := suf.data.isSuffixOf s.data

/-- `os.path.basename`: everything after the last `/`. -/
def basename (name : String) : String :=
  String.mk ((name.data.reverse.takeWhile (fun c => !(c = '/'))).reverse)

/-- `str(Path(name).with_suffix(''))`: drop the trailing extension, where an
extension is a final `.`-segment that is neither leading nor empty
(pathlib's suffix rule: the last `.` at index `i` with `0 < i < len - 1`). -/
def stripLastSuffix (name : String) : String :=
  match lastIdxWhere (fun c => c = '.') name.data with
  | some i =>
      if 0 < i ∧ i < name.data.length - 1 then String.mk (name.data.take i)
      else name
  | none => name

/-- `to_file` (file.py 63-113) with the default `keep_static_file=False` and
no alternate path: the zip members written, in order. -/
def to_file (obj : SketchFile) : List (String × Json) :=
  let pages := docPages obj.contents.document
  let pageMembers :=
    pages.map (fun p => ("pages/" ++ pageDoId p ++ ".json", p))
  let refs := pages.map (fun p => fileRefDict ("pages/" ++ pageDoId p))
  let wsMembers :=
    obj.contents.workspace.map (fun kv => ("workspace/" ++ kv.1 ++ ".json", kv.2))
  let documentDict := Json.setKey obj.contents.document "pages" (.jarr refs)
  pageMembers ++ wsMembers ++
    [("document.json", documentDict),
     ("user.json", obj.contents.user),
     ("meta.json", obj.contents.meta)]

/-- `zip_file.read(name)` with `KeyError` on a missing member. -/
def readMember (z : List (String × Json)) (name err : String) : Except String Json :=
  match zipRead? z name with
  | some v => .ok v
  | none => .error err

/-- one iteration of the `for page in document_dict['pages']` loop: the entry
must be a dict carrying `_ref`, and the member `f"{page['_ref']}.json"` is
read from the archive. -/
def readPageRef (z : List (String × Json)) (page : Json) : Except String Json :=
  match page with
  | .jobj kvs =>
      match (Json.jobj kvs).get? "_ref" with
      | some r => readMember z (r.pyStr ++ ".json") "KeyError: page member missing"
      | none => .error "ValueError: document.json is not valid"
  | _ => .error "ValueError: document.json is not valid"

/-- the sequential page-loading loop (raises at the first bad entry) -/
def exceptMapM (g : Json → Except String Json) : List Json → Except String (List Json)
  | [] => .ok []
  | a :: as => do
      let y ← g a
      let ys ← exceptMapM g as
      .ok (y :: ys)

/-- `from_file` (file.py 32-60) on an opened archive.  The two filesystem
checks (`os.path.isfile`, `zipfile.is_zipfile`) happen before the archive
exists and stay outside the model. -/
def from_file (file_path : String) (z : List (String × Json)) :
    Except String SketchFile := do
  let documentDict ← readMember z "document.json" "KeyError: document.json"
  let pagesVal ←
    match documentDict with
    | .jobj kvs =>
        match (Json.jobj kvs).get? "pages" with
        | some pv => Except.ok pv
        | none => Except.error "ValueError: document.json is not valid"
    | _ => Except.error "ValueError: document.json is not valid"
  let pageEntries ← pagesVal.pyIter
  let pages ← exceptMapM (readPageRef z) pageEntries
  let documentDict := Json.setKey documentDict "pages" (.jarr pages)
  let workspace := pyDictOfList
    (((zipNames z).filter
        (fun n => pyStartsWith n "workspace/" && pyEndsWith n ".json")).map
      (fun n => (stripLastSuffix (basename n), (zipRead? z n).getD .null)))
  let meta ← readMember z "meta.json" "KeyError: meta.json"
  let user ← readMember z "user.json" "KeyError: user.json"
  .ok { filepath := file_path,
        contents := { document := documentDict, meta := meta, user := user,
                      workspace := workspace } }

/-! ## Claims -/

/-! ### C10 — `create_union` on a singleton -/

/-- **C10** — `create_union` applied to a one-element list returns that
element with no `Union` wrapper (and no import registration); consequently a
string-typed schema whose `enum` has exactly one member translates to the
bare `Literal` annotation. -/
theorem C10_create_union_singleton (b : Builder) (n : PyAst) (fuel : Nat)
    (kvs : List (String × Json)) (ident : String) (tl : Bool) (v : Json)
    (ht : (Json.jobj kvs).get? "type" = some (.js "string"))
    (he : (Json.jobj kvs).getNonNull? "enum" = some (.jarr [v])) :
    b.create_union [n] = .ok (b, n) ∧
      schema_to_ast_node (fuel + 1) b ident (.jobj kvs) tl =
        .ok (b.check_typing_import "Literal",
             .subscript (.pyName "Literal") (.pyConst v)) := by
  constructor
  · simp [Builder.create_union]
  · simp only [schema_to_ast_node, ht, he]
    rfl

/-- Witness for C10 at a concrete schema. -/
theorem C10_create_union_singleton_witness :
    Builder.create_union {} [.pyName "q"] = .ok ({}, .pyName "q") ∧
      schema_to_ast_node 1 {} "TestType"
          (.jobj [("type", .js "string"), ("enum", .jarr [.js "x"])]) true =
        .ok (Builder.check_typing_import {} "Literal",
             .subscript (.pyName "Literal") (.pyConst (.js "x"))) :=
  C10_create_union_singleton {} (.pyName "q") 0
    [("type", .js "string"), ("enum", .jarr [.js "x"])] "TestType" true (.js "x")
    rfl rfl

/-! ### C7 — numeric enums fail, other primitive enums translate

The claim also asserts that string-, integer- and boolean-typed enums
translate *without error*; that fails for an empty `enum` list, where
`create_union([])` raises `IndexError` (`nodes[0]`).  The amended claim
restricts the without-error part to non-empty enums. -/

def literalNodes (l : List Json) : List PyAst :=
  l.map (fun v => .subscript (.pyName "Literal") (.pyConst v))

def unionOf (nodes : List PyAst) : PyAst :=
  if nodes.length > 1 then .subscript (.pyName "Union") (.pyTuple nodes)
  else nodes.headD (.pyName "Any")

/-- the builder state after `create_union` (the `Union` import is required
only when a wrapper is emitted) -/
def unionBuilder (b : Builder) (nodes : List PyAst) : Builder :=
  if nodes.length > 1 then b.check_typing_import "Union" else b

/-- **C7 counterexample** — the claim as stated is false: the string-typed
schema `{"type": "string", "enum": []}` carries an `enum` list, yet
translation raises (`IndexError` out of `create_union([])`) instead of
producing a union of literals. -/
theorem C7_counterexample_empty_enum :
    schema_to_ast_node 1 {} "TestType"
        (.jobj [("type", .js "string"), ("enum", .jarr [])]) true =
      .error "IndexError: list index out of range" := rfl

/-- **C7 (amended)** — a `number`-typed schema carrying an `enum` always
fails fast with *enum not supported for number* and registers nothing, while
`string`/`integer`/`boolean` schemas carrying a **non-empty** `enum`
translate without error to the union of the `Literal` annotations of the
enum members. -/
theorem C7_number_enum_fails (fuel : Nat) (b : Builder) (ident : String)
    (kvs : List (String × Json)) (tl : Bool) (e : Json) (v : Json) (vs : List Json) :
    ((Json.jobj kvs).get? "type" = some (.js "number") →
      (Json.jobj kvs).getNonNull? "enum" = some e →
      schema_to_ast_node (fuel + 1) b ident (.jobj kvs) tl =
        .error "enum not supported for number") ∧
    (∀ ty, (ty = "string" ∨ ty = "integer" ∨ ty = "boolean") →
      (Json.jobj kvs).get? "type" = some (.js ty) →
      (Json.jobj kvs).getNonNull? "enum" = some (.jarr (v :: vs)) →
      schema_to_ast_node (fuel + 1) b ident (.jobj kvs) tl =
        .ok (unionBuilder (foldLiterals b (v :: vs)).1 (literalNodes (v :: vs)),
             unionOf (literalNodes (v :: vs)))) := by
  have hfold : ∀ (l : List Json) (b' : Builder),
      (foldLiterals b' l).2 = literalNodes l := by
    intro l
    induction l with
    | nil => intro b'; simp [foldLiterals, literalNodes]
    | cons a l ih =>
        intro b'
        show (PyAst.subscript (.pyName "Literal") (.pyConst a)) ::
            (foldLiterals (b'.check_typing_import "Literal") l).2 =
          literalNodes (a :: l)
        rw [ih]
        rfl
  have hcu : ∀ (b' : Builder), b'.create_union (literalNodes (v :: vs)) =
      .ok (unionBuilder b' (literalNodes (v :: vs)), unionOf (literalNodes (v :: vs))) := by
    intro b'
    by_cases hl : (literalNodes (v :: vs)).length > 1
    · simp [Builder.create_union, hl, unionOf, unionBuilder]
    · rcases vs with _ | ⟨a, l⟩
      · simp [Builder.create_union, literalNodes, unionOf, unionBuilder]
      · exact absurd (by simp [literalNodes]) hl
  constructor
  · intro ht he
    simp only [schema_to_ast_node, ht, he]
  · intro ty hty ht he
    rcases hty with rfl | rfl | rfl <;>
    · simp only [schema_to_ast_node, ht, he]
      show (foldLiterals b (v :: vs)).1.create_union (foldLiterals b (v :: vs)).2 =
        Except.ok (unionBuilder (foldLiterals b (v :: vs)).1 (literalNodes (v :: vs)),
          unionOf (literalNodes (v :: vs)))
      rw [hfold, hcu]

/-- Witness for C7 at concrete schemas: the failing number enum and the
successful two-member integer enum. -/
theorem C7_number_enum_fails_witness :
    schema_to_ast_node 1 {} "T"
        (.jobj [("type", .js "number"), ("enum", .jarr [.ji 1, .ji 2])]) true =
      .error "enum not supported for number" ∧
    schema_to_ast_node 1 {} "T"
        (.jobj [("type", .js "integer"), ("enum", .jarr [.ji 1, .ji 2])]) true =
      .ok (unionBuilder (foldLiterals {} [Json.ji 1, Json.ji 2]).1
             (literalNodes [.ji 1, .ji 2]),
           unionOf (literalNodes [.ji 1, .ji 2])) := by
  constructor
  · exact (C7_number_enum_fails 0 {} "T"
      [("type", .js "number"), ("enum", .jarr [.ji 1, .ji 2])] true
      (.jarr [.ji 1, .ji 2]) (.ji 1) [.ji 2]).1 rfl rfl
  · exact (C7_number_enum_fails 0 {} "T"
      [("type", .js "integer"), ("enum", .jarr [.ji 1, .ji 2])] true
      (.jarr [.ji 1, .ji 2]) (.ji 1) [.ji 2]).2 "integer" (Or.inr (Or.inl rfl)) rfl rfl

/-! ### C4 — naming of nested anonymous classes

The claim (like the repository's own test `test_nested_objects`, which
expects `TestTypeFoo`) says the minted name is `<parentId><Key>`.  The code
passes only the property key as the identifier of the recursive call
(utils.py 286-290) and `generate_class_name_from_key` capitalizes it
(utils.py 226-233), so the registered name is `Foo`. -/

/-- class identifiers registered in the builder by a translation -/
def registeredClassNames (r : Except String (Builder × PyAst)) : List String :=
  match r with
  | .ok (b, _) => b.classDict.map Prod.fst
  | .error _ => []

/-- `(target, annotation)` of each field of the returned class declaration -/
def classFieldsView (r : Except String (Builder × PyAst)) : List (String × PyAst) :=
  match r with
  | .ok (_, .classDef _ _ _ body) =>
      body.filterMap (fun e =>
        match e with
        | .annAssign t a _ => some (t, a)
        | _ => none)
  | _ => []

def nestedSchemaC4 : Json :=
  .jobj [("type", .js "object"),
         ("properties", .jobj
           [("foo", .jobj [("type", .js "object"),
                           ("properties", .jobj
                             [("bar", .jobj [("type", .js "string")])])])])]

/-- **C4** — at the failing input (the parent identifier `TestType` with a
nested anonymous object under key `foo`, the input of the repository's own
`test_nested_objects`), the translator registers the nested class under
`Foo` — capitalized key only, with a quoted forward reference in the parent —
and not under `TestTypeFoo` as the claim (and the test) state. -/
theorem C4_nested_class_named_by_key_only :
    registeredClassNames (schema_to_ast_node 3 {} "TestType" nestedSchemaC4 true) =
      ["Foo"] ∧
    classFieldsView (schema_to_ast_node 3 {} "TestType" nestedSchemaC4 true) =
      [("foo", .subscript (.pyName "Optional") (.pyConst (.js "Foo")))] ∧
    ("Foo" : String) ≠ "TestTypeFoo" :=
  ⟨rfl, rfl, by decide⟩

/-! ### C5 — determinism of generation

`all_classes = list(set(sorted(...)))` (generate.py 64-71): the `sorted`
call's ordering is discarded by the `set`, whose iteration order depends on
CPython's per-process randomized string hashing.  Two admissible set
iteration orders on the same input produce different `ClassValue` schemas
(and hence different emitted enum bodies and `class_map` entry orders), so
the output is not a function of the schema contents alone. -/

def defsC5 : List (String × Json) :=
  [("A", .jobj [("$id", .js "#A"),
                ("properties", .jobj [("_class", .jobj [("const", .js "alpha")])])]),
   ("B", .jobj [("$id", .js "#B"),
                ("properties", .jobj [("_class", .jobj [("const", .js "beta")])])])]

/-- the enum member list of a `class_values` schema, rendered as strings -/
def enumOrderOf (j : Json) : List String :=
  match j.get? "enum" with
  | some (.jarr l) => l.map Json.pyStr
  | _ => []

/-- **C5** — two set-iteration orders that CPython may exhibit on the same
input (both duplicate-free and member-preserving, which is all a `set`
guarantees) drive `all_classes` — and with it the synthetic `ClassValue`
schema — to different results, so generation is not deterministic across
runs. -/
theorem C5_set_order_changes_output :
    AdmissibleSetOrder (fun l => l)
      (sortStrings ((defsC5.map (fun d => map_definitions d.2)).filter
        (fun k => k.length > 0))) ∧
    AdmissibleSetOrder (fun l => l.reverse)
      (sortStrings ((defsC5.map (fun d => map_definitions d.2)).filter
        (fun k => k.length > 0))) ∧
    all_classes (fun l => l) defsC5 = ["alpha", "beta"] ∧
    all_classes (fun l => l.reverse) defsC5 = ["beta", "alpha"] ∧
    class_values (fun l => l) defsC5 ≠ class_values (fun l => l.reverse) defsC5 := by
  refine ⟨⟨by decide, fun x => Iff.rfl⟩, ⟨by decide, fun x => List.mem_reverse⟩,
    rfl, rfl, fun h => ?_⟩
  have h2 := congrArg enumOrderOf h
  rw [show enumOrderOf (class_values (fun l => l) defsC5) = ["alpha", "beta"] from rfl,
      show enumOrderOf (class_values (fun l => l.reverse) defsC5) = ["beta", "alpha"] from rfl] at h2
  exact absurd h2 (by decide)

/-! ### C2 — completeness and first-writer-wins of `class_map` -/

/-- the class identifier the claim predicts for a constant `c`: `extract_id`
of the `$id` of the *first* definition (in iteration order) whose
`properties._class.const` equals `c` -/
def firstDeclarer (definitions : List (String × Json)) (c : String) : Option String :=
  (definitions.find? (fun d => classConstMatches d.2 c)).bind (fun d =>
    match d.2.get? "$id" with
    | some (.js i) => some (extract_id i)
    | _ => none)

theorem lookup_eq_none_of_forall_ne {α : Type} {l : List (String × α)} {k : String}
    (h : ∀ p ∈ l, p.1 ≠ k) : l.lookup k = none := by
  induction l with
  | nil => rfl
  | cons p ps ih =>
      have hp := h p (List.mem_cons_self p ps)
      have hb : (k == p.1) = false := beq_eq_false_iff_ne.mpr (Ne.symm hp)
      simp only [List.lookup, hb]
      exact ih (fun q hq => h q (List.mem_cons_of_mem p hq))

theorem lookup_append_none {α : Type} (l1 l2 : List (String × α)) (k : String)
    (h : l1.lookup k = none) : (l1 ++ l2).lookup k = l2.lookup k := by
  induction l1 with
  | nil => rfl
  | cons p ps ih =>
      by_cases hpk : k = p.1
      · exfalso
        rw [hpk] at h
        simp only [List.lookup, beq_self_eq_true] at h
        exact Option.noConfusion h
      · have hb : (k == p.1) = false := beq_eq_false_iff_ne.mpr hpk
        simp only [List.lookup, hb] at h ⊢
        exact ih h

theorem upsert_eq_append {α : Type} (acc : List (String × α)) (k : String) (v : α)
    (h : acc.lookup k = none) : upsert acc k v = acc ++ [(k, v)] := by
  induction acc with
  | nil => rfl
  | cons p ps ih =>
      by_cases hpk : k = p.1
      · exfalso
        rw [hpk] at h
        simp only [List.lookup, beq_self_eq_true] at h
        exact Option.noConfusion h
      · have hb : (k == p.1) = false := beq_eq_false_iff_ne.mpr hpk
        simp only [List.lookup, hb] at h
        show (if p.1 = k then (k, v) :: ps else p :: upsert ps k v) = (p :: ps) ++ [(k, v)]
        rw [if_neg (Ne.symm hpk), ih h]
        rfl

/-- the entries `build_class_map` appends for a duplicate-free class list -/
def classMapEntries (definitions : List (String × Json)) : List String →
    List (String × String)
  | [] => []
  | c :: cs =>
      match firstDeclarer definitions c with
      | some v => (c, v) :: classMapEntries definitions cs
      | none => classMapEntries definitions cs

theorem classMapEntries_keys_mem (definitions : List (String × Json))
    (L : List String) (c : String) :
    c ∈ (classMapEntries definitions L).map Prod.fst ↔
      c ∈ L ∧ (firstDeclarer definitions c).isSome := by
  induction L with
  | nil => simp [classMapEntries]
  | cons x xs ih =>
      cases hx : firstDeclarer definitions x with
      | none =>
          simp only [classMapEntries, hx]
          rw [ih]
          constructor
          · rintro ⟨hm, hs⟩
            exact ⟨List.mem_cons_of_mem _ hm, hs⟩
          · rintro ⟨hm, hs⟩
            rcases List.mem_cons.mp hm with rfl | hm'
            · rw [hx] at hs
              simp at hs
            · exact ⟨hm', hs⟩
      | some v =>
          simp only [classMapEntries, hx, List.map_cons, List.mem_cons]
          rw [ih]
          constructor
          · rintro (rfl | ⟨hm, hs⟩)
            · exact ⟨Or.inl rfl, by rw [hx]; rfl⟩
            · exact ⟨Or.inr hm, hs⟩
          · rintro ⟨hm, hs⟩
            rcases hm with rfl | hm'
            · exact Or.inl rfl
            · exact Or.inr ⟨hm', hs⟩

theorem classMapEntries_keys_nodup (definitions : List (String × Json))
    (L : List String) (hL : L.Nodup) :
    ((classMapEntries definitions L).map Prod.fst).Nodup := by
  induction L with
  | nil => simp [classMapEntries]
  | cons x xs ih =>
      rcases List.nodup_cons.mp hL with ⟨hx, hxs⟩
      cases hfd : firstDeclarer definitions x with
      | none =>
          simp only [classMapEntries, hfd]
          exact ih hxs
      | some v =>
          simp only [classMapEntries, hfd, List.map_cons]
          refine List.nodup_cons.mpr ⟨?_, ih hxs⟩
          intro hmem
          exact hx ((classMapEntries_keys_mem definitions xs x).mp hmem).1

theorem classMapEntries_lookup (definitions : List (String × Json)) :
    ∀ (L : List String), L.Nodup → ∀ (c : String),
    c ∈ (classMapEntries definitions L).map Prod.fst →
    (classMapEntries definitions L).lookup c = firstDeclarer definitions c := by
  intro L
  induction L with
  | nil => intro _ c hc; simp [classMapEntries] at hc
  | cons x xs ih =>
      intro hL c hc
      rcases List.nodup_cons.mp hL with ⟨hx, hxs⟩
      cases hfd : firstDeclarer definitions x with
      | none =>
          simp only [classMapEntries, hfd] at hc ⊢
          exact ih hxs c hc
      | some v =>
          simp only [classMapEntries, hfd] at hc ⊢
          by_cases hcx : c = x
          · subst hcx
            have hb : (c == c) = true := beq_self_eq_true c
            simp only [List.lookup, hb]
            exact hfd.symm
          · have hb : (c == x) = false := beq_eq_false_iff_ne.mpr hcx
            simp only [List.map_cons, List.mem_cons] at hc
            rcases hc with rfl | hc'
            · exact absurd rfl hcx
            · simp only [List.lookup, hb]
              exact ih hxs c hc'

theorem foldClassMap (definitions : List (String × Json))
    (hids : ∀ d ∈ definitions, ∀ c : String,
      classConstMatches d.2 c = true → ∃ i, d.2.get? "$id" = some (.js i)) :
    ∀ (L : List String) (acc : List (String × String)),
      L.Nodup → (∀ c ∈ L, acc.lookup c = none) →
      L.foldlM (classMapStep definitions) acc =
        .ok (acc ++ classMapEntries definitions L) := by
  intro L
  induction L with
  | nil => intro acc _ _; simp [classMapEntries]; rfl
  | cons c cs ih =>
      intro acc hnd hdisj
      rcases List.nodup_cons.mp hnd with ⟨hc, hcs⟩
      rw [List.foldlM_cons]
      cases hfind : definitions.find? (fun d => classConstMatches d.2 c) with
      | none =>
          have hstep : classMapStep definitions acc c = .ok acc := by
            simp [classMapStep, hfind]
          have hfd : firstDeclarer definitions c = none := by
            simp [firstDeclarer, hfind]
          rw [hstep]
          show cs.foldlM (classMapStep definitions) acc = _
          rw [ih acc hcs (fun c' hc' => hdisj c' (List.mem_cons_of_mem _ hc'))]
          simp [classMapEntries, hfd]
      | some d =>
          have hdmem : d ∈ definitions := List.mem_of_find?_eq_some hfind
          have hdp0 := List.find?_some hfind
          have hdp : classConstMatches d.2 c = true := hdp0
          rcases hids d hdmem c hdp with ⟨i, hi⟩
          have hstep : classMapStep definitions acc c =
              .ok (acc ++ [(c, extract_id i)]) := by
            simp only [classMapStep, hfind, hi]
            rw [upsert_eq_append acc c (extract_id i) (hdisj c (List.mem_cons_self _ _))]
          have hfd : firstDeclarer definitions c = some (extract_id i) := by
            simp [firstDeclarer, hfind, hi]
          rw [hstep]
          show cs.foldlM (classMapStep definitions) (acc ++ [(c, extract_id i)]) = _
          rw [ih (acc ++ [(c, extract_id i)]) hcs ?_]
          · simp [classMapEntries, hfd]
          · intro c' hc'
            have hne : c' ≠ c := fun h => hc (h ▸ hc')
            rw [lookup_append_none _ _ _ (hdisj c' (List.mem_cons_of_mem _ hc'))]
            exact lookup_eq_none_of_forall_ne (by
              intro p hp
              rcases List.mem_singleton.mp hp with rfl
              exact fun h => hne h.symm)

theorem classConstMatches_eq_true_iff (schema : Json) (c : String) :
    classConstMatches schema c = true ↔
      ∃ props kk, schema.get? "properties" = some props ∧
        props.get? "_class" = some (.jobj kk) ∧
        (Json.jobj kk).get? "const" = some (.js c) := by
  unfold classConstMatches
  constructor
  · intro h
    split at h
    · next props hp =>
        split at h
        · next kk hcl =>
            split at h
            · next s hco =>
                simp only [decide_eq_true_eq] at h
                subst h
                exact ⟨props, kk, hp, hcl, hco⟩
            · simp at h
        · simp at h
    · simp at h
  · rintro ⟨props, kk, hp, hcl, hco⟩
    simp [hp, hcl, hco]

theorem map_definitions_of_matches (schema : Json) (c : String)
    (h : classConstMatches schema c = true) : map_definitions schema = c := by
  rcases (classConstMatches_eq_true_iff schema c).mp h with ⟨props, kk, hp, hcl, hco⟩
  unfold map_definitions
  simp only [hp, hcl, hco, Json.pyStr]

theorem mem_insertStr (a x : String) (l : List String) :
    a ∈ insertStr x l ↔ a = x ∨ a ∈ l := by
  induction l with
  | nil => simp [insertStr]
  | cons y ys ih =>
      simp only [insertStr]
      split
      · simp
      · simp only [List.mem_cons, ih]
        tauto

theorem mem_sortStrings (a : String) (l : List String) :
    a ∈ sortStrings l ↔ a ∈ l := by
  induction l with
  | nil => simp [sortStrings]
  | cons x xs ih =>
      simp only [sortStrings, mem_insertStr, List.mem_cons, ih]

/-- **C2** — for every admissible set-iteration order and definition list
whose `_class`-bearing schemas carry a string `$id`, `build_class_map`
succeeds and the resulting `class_map` has duplicate-free keys, contains a
key `c` exactly when `c` is a non-empty `_class` string constant of some
definition, and maps every key to the identifier derived from the `$id` of
the *first* definition (in iteration order) whose `properties._class.const`
equals it. -/
theorem C2_class_map_complete (σ : List String → List String)
    (definitions : List (String × Json))
    (hadm : AdmissibleSetOrder σ
      (sortStrings ((definitions.map (fun d => map_definitions d.2)).filter
        (fun k => k.length > 0))))
    (hids : ∀ d ∈ definitions, ∀ c : String,
      classConstMatches d.2 c = true → ∃ i, d.2.get? "$id" = some (.js i)) :
    ∃ m, build_class_map σ definitions = .ok m ∧
      (m.map Prod.fst).Nodup ∧
      (∀ c : String, c ∈ m.map Prod.fst ↔
        (c ≠ "" ∧ ∃ d ∈ definitions, classConstMatches d.2 c = true)) ∧
      (∀ c ∈ m.map Prod.fst, m.lookup c = firstDeclarer definitions c) := by
  rcases hadm with ⟨hnd, hmem⟩
  refine ⟨classMapEntries definitions (all_classes σ definitions), ?_, ?_, ?_, ?_⟩
  · have hnd' : (all_classes σ definitions).Nodup := hnd
    rw [build_class_map,
      foldClassMap definitions hids (all_classes σ definitions) [] hnd'
        (fun c _ => rfl)]
    rfl
  · exact classMapEntries_keys_nodup definitions _ hnd
  · intro c
    rw [classMapEntries_keys_mem]
    have hmem' : c ∈ all_classes σ definitions ↔
        c ∈ ((definitions.map (fun d => map_definitions d.2)).filter
          (fun k => k.length > 0)) :=
      (hmem c).trans (mem_sortStrings c _)
    rw [hmem']
    constructor
    · rintro ⟨hin, hsome⟩
      rcases List.mem_filter.mp hin with ⟨_, hlen⟩
      refine ⟨?_, ?_⟩
      · intro h
        subst h
        simp at hlen
      · cases hfind : definitions.find? (fun d => classConstMatches d.2 c) with
        | none => rw [firstDeclarer, hfind] at hsome; simp at hsome
        | some d =>
            have hdp0 := List.find?_some hfind
            exact ⟨d, List.mem_of_find?_eq_some hfind, hdp0⟩
    · rintro ⟨hne, d, hdmem, hdp⟩
      have hmap : map_definitions d.2 = c := map_definitions_of_matches d.2 c hdp
      refine ⟨List.mem_filter.mpr ⟨List.mem_map.mpr ⟨d, hdmem, hmap⟩, ?_⟩, ?_⟩
      · simp only [decide_eq_true_eq]
        rcases Nat.eq_zero_or_pos c.length with h0 | hpos
        · have hdata : c.data = [] := List.eq_nil_of_length_eq_zero h0
          exact absurd (String.ext hdata) hne
        · exact hpos
      · cases hfind : definitions.find? (fun d => classConstMatches d.2 c) with
        | none =>
            have := List.find?_eq_none.mp hfind d hdmem
            rw [hdp] at this
            simp at this
        | some d' =>
            have hdp0 := List.find?_some hfind
            rcases hids d' (List.mem_of_find?_eq_some hfind) c hdp0 with ⟨i, hi⟩
            rw [firstDeclarer, hfind]
            simp [hi]
  · intro c hc
    exact classMapEntries_lookup definitions _ hnd c hc

/-- Witness for C2: both admissibility and the `$id` condition hold for the
two-definition input `defsC5`, with the identity set order. -/
theorem C2_class_map_complete_witness :
    ∃ m, build_class_map (fun l => l) defsC5 = .ok m ∧
      (m.map Prod.fst).Nodup ∧
      (∀ c : String, c ∈ m.map Prod.fst ↔
        (c ≠ "" ∧ ∃ d ∈ defsC5, classConstMatches d.2 c = true)) ∧
      (∀ c ∈ m.map Prod.fst, m.lookup c = firstDeclarer defsC5 c) := by
  apply C2_class_map_complete
  · exact ⟨by decide, fun x => Iff.rfl⟩
  · intro d hd c _
    have : d = ("A", Json.jobj [("$id", .js "#A"),
        ("properties", .jobj [("_class", .jobj [("const", .js "alpha")])])]) ∨
        d = ("B", Json.jobj [("$id", .js "#B"),
        ("properties", .jobj [("_class", .jobj [("const", .js "beta")])])]) := by
      simpa [defsC5] using hd
    rcases this with rfl | rfl
    · exact ⟨"#A", rfl⟩
    · exact ⟨"#B", rfl⟩

/-! ### C3 — decoder injection on Union-bearing fields

The three value shapes the translator can leave on a class field are: no
value (required, not renamed), `Constant(None)` (optional, not renamed), and
a `field(metadata={"fastclasses_json": {"field_name": key}})` call, with a
`default=None` keyword appended when optional. -/

inductive GenValueShape : Option PyAst → Prop where
  | noneVal : GenValueShape none
  | constNull : GenValueShape (some (.pyConst .null))
  | fcCall (key : String) (rest : List (String × PyAst))
      (hrest : rest = [] ∨ rest = [("default", .pyConst .null)]) :
      GenValueShape (some (.pyCall (.pyName "field") []
        (("metadata", .pyDict [.pyConst (.js "fastclasses_json")]
            [.pyDict [.pyConst (.js "field_name")] [.pyConst (.js key)]]) :: rest)))

/-- the entries of the fastclasses sub-dict, located the way the wiring loop
locates it (last `metadata` keyword carrying one, first such entry inside) -/
def fcEntriesOfValue : Option PyAst → List (PyAst × PyAst)
  | some (.pyCall _ _ kws) =>
      match lastIdxWhere kwHasFc kws with
      | some i =>
          match kws.get? i with
          | some kw =>
              match kw.2 with
              | .pyDict ks vs =>
                  match dictFirstFcIdx ks vs with
                  | some j =>
                      match vs.get? j with
                      | some (.pyDict fk fv) => fk.zip fv
                      | _ => []
                  | none => []
              | _ => []
          | none => []
      | none => []
  | _ => []

/-- the default carried by a field value: the `default=` keyword of a
`field(...)` call, or the bare value itself -/
def valueDefaultKw : Option PyAst → Option PyAst
  | some (.pyCall _ _ kws) => kws.lookup "default"
  | some v => some v
  | none => none

/-- **C3** — after polymorphism wiring (which rewrites every class body
fieldwise with `wireField`), a field whose annotation is `Union[...]`,
`Optional[Union[...]]` or `List[Union[...]]` ends with a `field(...)` call as
its value whose fastclasses metadata gains exactly one trailing `decoder`
entry — `to_object` for the first two shapes, the per-element
`lambda lst: [to_object(x) for x in lst]` for the list shape — while the
pre-existing default is preserved; any other annotation shape leaves the
field untouched. -/
theorem C3_decoder_injection (b : Builder) :
    (insert_encoder_and_decoder_to_class b).classDict =
      b.classDict.map (fun entry =>
        match entry with
        | (i, s, .classDef n bs decos body) =>
            (i, s, PyAst.classDef n bs decos (body.map wireField))
        | other => other) ∧
    ∀ (target : String) (ann : PyAst) (v : Option PyAst),
      GenValueShape v →
      (check_ann_assign_contains_union (.annAssign target ann v) = .NOT_UNION →
        wireField (.annAssign target ann v) = .annAssign target ann v) ∧
      (check_ann_assign_contains_union (.annAssign target ann v) ≠ .NOT_UNION →
        ∃ f args kws, wireField (.annAssign target ann v) =
          .annAssign target ann (some (.pyCall f args kws)) ∧
          fcEntriesOfValue (some (.pyCall f args kws)) =
            fcEntriesOfValue v ++
              [(.pyConst (.js "decoder"),
                if check_ann_assign_contains_union (.annAssign target ann v) =
                    .LIST_UNION
                then list_to_object_lambda else to_object_call)] ∧
          valueDefaultKw (some (.pyCall f args kws)) = valueDefaultKw v) := by
  refine ⟨rfl, ?_⟩
  intro target ann v hshape
  constructor
  · intro h
    simp [wireField, h]
  · intro h
    cases hshape with
    | noneVal =>
        refine ⟨.pyName "field", [],
          [("metadata", .pyDict [.pyConst (.js "fastclasses_json")]
            [.pyDict [.pyConst (.js "decoder")]
              [if check_ann_assign_contains_union (.annAssign target ann none) =
                  .LIST_UNION then list_to_object_lambda else to_object_call]])],
          ?_, rfl, rfl⟩
        simp only [wireField, if_neg h]
        rfl
    | constNull =>
        refine ⟨.pyName "field", [],
          [("metadata", .pyDict [.pyConst (.js "fastclasses_json")]
            [.pyDict [.pyConst (.js "decoder")]
              [if check_ann_assign_contains_union
                  (.annAssign target ann (some (.pyConst .null))) =
                  .LIST_UNION then list_to_object_lambda else to_object_call]]),
           ("default", .pyConst .null)],
          ?_, rfl, rfl⟩
        simp only [wireField, if_neg h]
        rfl
    | fcCall key rest hrest =>
        rcases hrest with rfl | rfl
        · refine ⟨.pyName "field", [],
            [("metadata", .pyDict [.pyConst (.js "fastclasses_json")]
              [.pyDict [.pyConst (.js "field_name"), .pyConst (.js "decoder")]
                [.pyConst (.js key),
                 if check_ann_assign_contains_union (.annAssign target ann
                     (some (.pyCall (.pyName "field") []
                       [("metadata", .pyDict [.pyConst (.js "fastclasses_json")]
                         [.pyDict [.pyConst (.js "field_name")]
                           [.pyConst (.js key)]])]))) =
                     .LIST_UNION then list_to_object_lambda else to_object_call]])],
            ?_, rfl, rfl⟩
          simp only [wireField, if_neg h]
          rfl
        · refine ⟨.pyName "field", [],
            [("metadata", .pyDict [.pyConst (.js "fastclasses_json")]
              [.pyDict [.pyConst (.js "field_name"), .pyConst (.js "decoder")]
                [.pyConst (.js key),
                 if check_ann_assign_contains_union (.annAssign target ann
                     (some (.pyCall (.pyName "field") []
                       [("metadata", .pyDict [.pyConst (.js "fastclasses_json")]
                         [.pyDict [.pyConst (.js "field_name")]
                           [.pyConst (.js key)]]),
                        ("default", .pyConst .null)]))) =
                     .LIST_UNION then list_to_object_lambda else to_object_call]]),
             ("default", .pyConst .null)],
            ?_, rfl, rfl⟩
          simp only [wireField, if_neg h]
          rfl

/-- Witness for C3 at a concrete field: `Optional[Union[A, B]]` with an
optional `Constant(None)` default. -/
theorem C3_decoder_injection_witness :
    ∃ f args kws,
      wireField (.annAssign "x"
          (.subscript (.pyName "Optional")
            (.subscript (.pyName "Union") (.pyTuple [.pyName "A", .pyName "B"])))
          (some (.pyConst .null))) =
        .annAssign "x"
          (.subscript (.pyName "Optional")
            (.subscript (.pyName "Union") (.pyTuple [.pyName "A", .pyName "B"])))
          (some (.pyCall f args kws)) ∧
      fcEntriesOfValue (some (.pyCall f args kws)) =
        fcEntriesOfValue (some (PyAst.pyConst .null)) ++
          [(.pyConst (.js "decoder"),
            if check_ann_assign_contains_union (.annAssign "x"
                (.subscript (.pyName "Optional")
                  (.subscript (.pyName "Union") (.pyTuple [.pyName "A", .pyName "B"])))
                (some (.pyConst .null))) = .LIST_UNION
            then list_to_object_lambda else to_object_call)] ∧
      valueDefaultKw (some (.pyCall f args kws)) =
        valueDefaultKw (some (PyAst.pyConst .null)) :=
  ((C3_decoder_injection {}).2 "x"
    (.subscript (.pyName "Optional")
      (.subscript (.pyName "Union") (.pyTuple [.pyName "A", .pyName "B"])))
    (some (.pyConst .null)) GenValueShape.constNull).2 (by decide)

/-! ### C1 — ordering of emitted class fields

`sorted(properties.items(), key=λitem: required.index(item[0]) if item[0] in
required else len(required))` is a stable sort by a `Nat` key bounded by
`len(required)`.  A stable sort by a bounded key equals the concatenation of
the key-buckets in ascending key order, each bucket in source order
(`pyStableSort_eq_bucketsFrom` below).  The required partition is therefore
ordered by *position in the `required` list*, not by source order as the
claim states. -/

section StableSortBuckets

variable {α : Type} (f : α → Nat)

theorem pyOrderedInsert_append (x : α) (A r : List α)
    (hA : ∀ y ∈ A, ¬ f x ≤ f y) :
    pyOrderedInsert f x (A ++ r) = A ++ pyOrderedInsert f x r := by
  induction A with
  | nil => rfl
  | cons a as ih =>
      have hax := hA a (List.mem_cons_self a as)
      simp only [List.cons_append, pyOrderedInsert, if_neg hax, List.append_eq]
      rw [ih (fun y hy => hA y (List.mem_cons_of_mem a hy))]

theorem pyOrderedInsert_all_ge (x : α) (r : List α)
    (hr : ∀ y ∈ r, f x ≤ f y) : pyOrderedInsert f x r = x :: r := by
  cases r with
  | nil => rfl
  | cons a as =>
      simp only [pyOrderedInsert, if_pos (hr a (List.mem_cons_self a as))]

/-- the elements of `l` whose key lies in `[i, i+c)`, bucket by bucket in
ascending key order, each bucket in source order -/
def bucketsFrom (l : List α) (i : Nat) : Nat → List α
  | 0 => []
  | c + 1 => l.filter (fun a => f a = i) ++ bucketsFrom l (i + 1) c

theorem bucketsFrom_nil : ∀ (c i : Nat), bucketsFrom f [] i c = [] := by
  intro c
  induction c with
  | zero => intro i; rfl
  | succ c ih => intro i; simp only [bucketsFrom, List.filter_nil, List.nil_append, ih]

theorem mem_bucketsFrom : ∀ (c i : Nat) (y : α),
    y ∈ bucketsFrom f l i c → (i ≤ f y ∧ f y < i + c) ∧ y ∈ l := by
  intro c
  induction c with
  | zero => intro i y h; simp [bucketsFrom] at h
  | succ c ih =>
      intro i y h
      simp only [bucketsFrom] at h
      rcases List.mem_append.mp h with h1 | h2
      · rcases List.mem_filter.mp h1 with ⟨hm, hk⟩
        simp only [decide_eq_true_eq] at hk
        exact ⟨⟨by omega, by omega⟩, hm⟩
      · rcases ih (i + 1) y h2 with ⟨⟨h3, h4⟩, hm⟩
        exact ⟨⟨by omega, by omega⟩, hm⟩

theorem bucketsFrom_cons_lt (x : α) (l : List α) :
    ∀ (c i : Nat), f x < i → bucketsFrom f (x :: l) i c = bucketsFrom f l i c := by
  intro c
  induction c with
  | zero => intro i _; rfl
  | succ c ih =>
      intro i hi
      have hne : (decide (f x = i)) = false := by
        simp only [decide_eq_false_iff_not]
        omega
      simp only [bucketsFrom, List.filter_cons, hne, Bool.false_eq_true, if_false,
        ih (i + 1) (by omega)]

theorem pyOrderedInsert_bucketsFrom (x : α) (l : List α) :
    ∀ (c i : Nat), i ≤ f x → f x < i + c →
    pyOrderedInsert f x (bucketsFrom f l i c) = bucketsFrom f (x :: l) i c := by
  intro c
  induction c with
  | zero => intro i h1 h2; omega
  | succ c ih =>
      intro i h1 h2
      by_cases hfx : f x = i
      · have hfilter : (x :: l).filter (fun a => decide (f a = i)) =
            x :: l.filter (fun a => decide (f a = i)) := by
          simp [List.filter_cons, hfx]
        have htail : bucketsFrom f (x :: l) (i + 1) c = bucketsFrom f l (i + 1) c :=
          bucketsFrom_cons_lt f x l c (i + 1) (by omega)
        show pyOrderedInsert f x
            (l.filter (fun a => decide (f a = i)) ++ bucketsFrom f l (i + 1) c) = _
        cases hfl : l.filter (fun a => decide (f a = i)) with
        | nil =>
            simp only [List.nil_append]
            rw [pyOrderedInsert_all_ge f x _ (fun y hy => by
              rcases mem_bucketsFrom f (c := c) (i := i + 1) y hy with ⟨⟨h3, _⟩, _⟩
              omega)]
            simp only [bucketsFrom, hfilter, hfl, htail, List.cons_append,
              List.nil_append]
        | cons z zs =>
            have hz : f z = i := by
              have : z ∈ l.filter (fun a => decide (f a = i)) := by
                rw [hfl]; exact List.mem_cons_self z zs
              rcases List.mem_filter.mp this with ⟨_, hk⟩
              simpa using hk
            show pyOrderedInsert f x (z :: (zs ++ bucketsFrom f l (i + 1) c)) = _
            simp only [pyOrderedInsert, if_pos (by omega : f x ≤ f z)]
            simp only [bucketsFrom, hfilter, hfl, htail, List.cons_append]
      · have hi : i < f x := by omega
        have hfilter : (x :: l).filter (fun a => decide (f a = i)) =
            l.filter (fun a => decide (f a = i)) := by
          simp [List.filter_cons, hfx]
        show pyOrderedInsert f x
            (l.filter (fun a => decide (f a = i)) ++ bucketsFrom f l (i + 1) c) = _
        rw [pyOrderedInsert_append f x _ _ (fun y hy => by
          rcases List.mem_filter.mp hy with ⟨_, hk⟩
          simp only [decide_eq_true_eq] at hk
          omega)]
        rw [ih (i + 1) (by omega) (by omega)]
        simp only [bucketsFrom, hfilter]

theorem pyStableSort_eq_bucketsFrom (l : List α) (n : Nat)
    (hb : ∀ a ∈ l, f a < n) : pyStableSort f l = bucketsFrom f l 0 n := by
  induction l with
  | nil => rw [bucketsFrom_nil]; rfl
  | cons x xs ih =>
      show pyOrderedInsert f x (pyStableSort f xs) = _
      rw [ih (fun a ha => hb a (List.mem_cons_of_mem x ha))]
      exact pyOrderedInsert_bucketsFrom f x xs n 0 (Nat.zero_le _)
        (by simpa using hb x (List.mem_cons_self x xs))

theorem bucketsFrom_succ_split (l : List α) :
    ∀ (c i : Nat), bucketsFrom f l i (c + 1) =
      bucketsFrom f l i c ++ l.filter (fun a => f a = i + c) := by
  intro c
  induction c with
  | zero =>
      intro i
      simp [bucketsFrom]
  | succ c ih =>
      intro i
      show l.filter (fun a => decide (f a = i)) ++ bucketsFrom f l (i + 1) (c + 1) = _
      rw [ih (i + 1)]
      show _ = (l.filter (fun a => decide (f a = i)) ++ bucketsFrom f l (i + 1) c) ++ _
      rw [List.append_assoc]
      have : i + 1 + c = i + (c + 1) := by omega
      rw [this]

theorem bucketsFrom_pairwise (l : List α) :
    ∀ (c i : Nat), (bucketsFrom f l i c).Pairwise (fun a b => f a ≤ f b) := by
  intro c
  induction c with
  | zero => intro i; exact List.Pairwise.nil
  | succ c ih =>
      intro i
      rw [bucketsFrom, List.pairwise_append]
      refine ⟨?_, ih (i + 1), ?_⟩
      · refine List.pairwise_of_forall_mem_list ?_
        intro a ha b hb
        rcases List.mem_filter.mp ha with ⟨_, hka⟩
        rcases List.mem_filter.mp hb with ⟨_, hkb⟩
        simp only [decide_eq_true_eq] at hka hkb
        omega
      · intro a ha b hb
        rcases List.mem_filter.mp ha with ⟨_, hk⟩
        simp only [decide_eq_true_eq] at hk
        rcases mem_bucketsFrom f (c := c) (i := i + 1) b hb with ⟨⟨h3, _⟩, _⟩
        omega

end StableSortBuckets

theorem except_bind_error {ε α β : Type} (e : ε) (k : α → Except ε β) :
    (Except.error e >>= k) = Except.error e := rfl

theorem except_bind_ok {ε α β : Type} (a : α) (k : α → Except ε β) :
    (Except.ok a >>= k) = k a := rfl

/-- the source key an emitted field came from: the `field_name` rename
metadata when the mint changed the name, else the field's own target -/
def fieldSourceKey : PyAst → Option String
  | .annAssign _ _ (some (.pyCall _ _
      (("metadata", .pyDict [.pyConst (.js "fastclasses_json")]
        [.pyDict [.pyConst (.js "field_name")] [.pyConst (.js k)]]) :: _))) =>
      some k
  | .annAssign t _ _ => some t
  | _ => none

theorem mkFieldStep_sourceKey (required : List Json) (b : Builder)
    (elements : List PyAst) (key : String) (annot : PyAst) :
    fieldSourceKey (mkFieldStep required b elements key annot).2 = some key := by
  unfold mkFieldStep
  by_cases hnk : generate_field_name key (targetsOfElements elements) = key <;>
    cases hreq : reqMem required key <;>
      simp [hreq, hnk, fieldSourceKey, fieldNameCall]

theorem buildFields_sourceKeys
    (recur : Builder → String → Json → Bool → Except String (Builder × PyAst))
    (required : List Json) :
    ∀ (props : List (String × Json)) (b : Builder) (acc : List PyAst)
      (b' : Builder) (elements : List PyAst),
      buildFields recur required b acc props = .ok (b', elements) →
      elements.filterMap fieldSourceKey =
        acc.filterMap fieldSourceKey ++ props.map Prod.fst := by
  intro props
  induction props with
  | nil =>
      intro b acc b' elements h
      simp only [buildFields] at h
      rcases h with ⟨rfl, rfl⟩
      simp
  | cons p rest ih =>
      intro b acc b' elements h
      obtain ⟨key, value⟩ := p
      simp only [buildFields] at h
      cases hrec : recur b key value false with
      | error e =>
          rw [hrec, except_bind_error] at h
          cases h
      | ok ba =>
          obtain ⟨b1, annot⟩ := ba
          rw [hrec, except_bind_ok] at h
          have hrec2 := ih _ _ b' elements h
          rw [hrec2, List.filterMap_append]
          simp only [List.filterMap_cons, mkFieldStep_sourceKey, List.filterMap_nil,
            List.map_cons]
          rw [List.append_assoc]
          rfl

theorem reqSortKey_le (required : List Json) (k : String) :
    reqSortKey required k ≤ required.length :=
  List.findIdx_le_length _

theorem reqSortKey_eq_length_iff (required : List Json) (k : String) :
    reqSortKey required k = required.length ↔ reqMem required k = false := by
  unfold reqSortKey reqMem
  rw [List.findIdx_eq_length, List.any_eq_false]
  simp

theorem reqMem_true_of_lt (required : List Json) (k : String)
    (h : reqSortKey required k < required.length) : reqMem required k = true := by
  by_contra hc
  simp only [Bool.not_eq_true] at hc
  rw [← reqSortKey_eq_length_iff] at hc
  omega

/-- **C1 (amended)** — for every object schema translated along the class
path, the emitted field list is built over `sortProps`, whose result is: the
properties whose key occurs in `required` first — ordered by the *position of
the key in the `required` list* (source order preserved among equal
positions) — followed by the remaining properties in source order; and the
emitted elements' source keys are exactly the sorted keys.  (The claim's
"source order within the required partition" is what fails; see the
counterexample.) -/
theorem C1_required_first_amended
    (props : List (String × Json)) (required : List Json)
    (fuel : Nat) (b b' : Builder) (ident : String) (kvs : List (String × Json))
    (tl : Bool) (out : PyAst)
    (ht : (Json.jobj kvs).get? "type" = some (.js "object"))
    (hp : (Json.jobj kvs).get? "properties" = some (.jobj props))
    (hap : (match (Json.jobj kvs).get? "additionalProperties" with
            | some (Json.jb true) => true
            | _ => false) = false)
    (hreq : requiredOf (.jobj kvs) = required)
    (hstan : schema_to_ast_node (fuel + 1) b ident (.jobj kvs) tl = .ok (b', out)) :
    sortProps required props =
      bucketsFrom (fun p => reqSortKey required p.1) props 0 required.length ++
        props.filter (fun p => !(reqMem required p.1)) ∧
    (∀ p ∈ bucketsFrom (fun p => reqSortKey required p.1) props 0 required.length,
        reqMem required p.1 = true) ∧
    (bucketsFrom (fun p => reqSortKey required p.1) props 0 required.length).Pairwise
      (fun a c => reqSortKey required a.1 ≤ reqSortKey required c.1) ∧
    ∃ elements bmid,
      buildFields (schema_to_ast_node fuel) required b [] (sortProps required props) =
        .ok (bmid, elements) ∧
      elements.filterMap fieldSourceKey = (sortProps required props).map Prod.fst ∧
      (tl = true →
        out = .classDef ident ["JSONMixin"] ["dataclass_json", "dataclass"] elements) := by
  have hbound : ∀ p ∈ props, (fun p : String × Json => reqSortKey required p.1) p <
      required.length + 1 := by
    intro p _
    have := reqSortKey_le required p.1
    show reqSortKey required p.1 < required.length + 1
    omega
  refine ⟨?_, ?_, ?_, ?_⟩
  · unfold sortProps
    rw [pyStableSort_eq_bucketsFrom _ props (required.length + 1) hbound,
      bucketsFrom_succ_split]
    congr 1
    apply List.filter_congr
    intro p _
    simp only [Nat.zero_add]
    by_cases hm : reqMem required p.1 = true
    · have : reqSortKey required p.1 ≠ required.length := by
        intro hc
        rw [reqSortKey_eq_length_iff] at hc
        rw [hm] at hc
        cases hc
      simp [this, hm]
    · simp only [Bool.not_eq_true] at hm
      have := (reqSortKey_eq_length_iff required p.1).mpr hm
      simp [this, hm]
  · intro p hmem
    rcases mem_bucketsFrom _ required.length 0 p hmem with ⟨⟨_, hlt⟩, _⟩
    have hlt' : reqSortKey required p.1 < 0 + required.length := hlt
    exact reqMem_true_of_lt required p.1 (by omega)
  · exact bucketsFrom_pairwise _ props required.length 0
  · simp only [schema_to_ast_node, ht, hp, hap, hreq, Bool.false_eq_true, if_false] at hstan
    cases hbf : buildFields (schema_to_ast_node fuel) required b []
        (sortProps required props) with
    | error e =>
        rw [hbf, except_bind_error] at hstan
        cases hstan
    | ok pr =>
        obtain ⟨bmid, elements⟩ := pr
        rw [hbf, except_bind_ok] at hstan
        refine ⟨elements, bmid, rfl, ?_, ?_⟩
        · have := buildFields_sourceKeys (schema_to_ast_node fuel) required
            (sortProps required props) b [] bmid elements hbf
          simpa using this
        · intro htl
          subst htl
          simp only [if_true] at hstan
          rcases hstan with ⟨rfl, rfl⟩
          rfl

/-! #### C1 counterexample -/

/-- The ordering the claim (and the spec) describes: keys in `required`
first, the rest after, **source order preserved within each partition**. -/
def specRequiredFirstOrder (required : List Json) (props : List (String × Json)) :
    List (String × Json) :=
  props.filter (fun p => reqMem required p.1) ++
    props.filter (fun p => !(reqMem required p.1))

def schemaC1 : Json :=
  .jobj [("type", .js "object"),
         ("properties", .jobj [("foo", .jobj [("type", .js "string")]),
                               ("bar", .jobj [("type", .js "number")])]),
         ("required", .jarr [.js "bar", .js "foo"])]

/-- **C1 counterexample** — with properties in source order `foo, bar` and
`required = ["bar", "foo"]`, the code emits the fields in required-list order
`bar, foo`, while the claim's source-order-within-partition reading predicts
`foo, bar`. -/
theorem C1_counterexample_required_list_order :
    (sortProps [.js "bar", .js "foo"]
        [("foo", Json.jobj [("type", Json.js "string")]),
         ("bar", Json.jobj [("type", Json.js "number")])]).map Prod.fst =
      ["bar", "foo"] ∧
    (specRequiredFirstOrder [.js "bar", .js "foo"]
        [("foo", Json.jobj [("type", Json.js "string")]),
         ("bar", Json.jobj [("type", Json.js "number")])]).map Prod.fst =
      ["foo", "bar"] ∧
    (classFieldsView (schema_to_ast_node 2 {} "TestType" schemaC1 true)).map
        Prod.fst = ["bar", "foo"] ∧
    (["bar", "foo"] : List String) ≠ ["foo", "bar"] :=
  ⟨rfl, rfl, rfl, by decide⟩

/-- Witness for the amended C1 at the concrete counterexample schema. -/
theorem C1_required_first_amended_witness :
    sortProps [.js "bar", .js "foo"]
        [("foo", Json.jobj [("type", Json.js "string")]),
         ("bar", Json.jobj [("type", Json.js "number")])] =
      bucketsFrom (fun p => reqSortKey [.js "bar", .js "foo"] p.1)
        [("foo", Json.jobj [("type", Json.js "string")]),
         ("bar", Json.jobj [("type", Json.js "number")])] 0
        ([Json.js "bar", Json.js "foo"] : List Json).length ++
        [("foo", Json.jobj [("type", Json.js "string")]),
         ("bar", Json.jobj [("type", Json.js "number")])].filter
          (fun p => !(reqMem [.js "bar", .js "foo"] p.1)) ∧
    (∀ p ∈ bucketsFrom (fun p => reqSortKey [.js "bar", .js "foo"] p.1)
        [("foo", Json.jobj [("type", Json.js "string")]),
         ("bar", Json.jobj [("type", Json.js "number")])] 0
        ([Json.js "bar", Json.js "foo"] : List Json).length,
        reqMem [.js "bar", .js "foo"] p.1 = true) ∧
    (bucketsFrom (fun p => reqSortKey [.js "bar", .js "foo"] p.1)
        [("foo", Json.jobj [("type", Json.js "string")]),
         ("bar", Json.jobj [("type", Json.js "number")])] 0
        ([Json.js "bar", Json.js "foo"] : List Json).length).Pairwise
      (fun a c => reqSortKey [.js "bar", .js "foo"] a.1 ≤
        reqSortKey [.js "bar", .js "foo"] c.1) ∧
    ∃ elements bmid,
      buildFields (schema_to_ast_node 1) [.js "bar", .js "foo"] {} []
          (sortProps [.js "bar", .js "foo"]
            [("foo", Json.jobj [("type", Json.js "string")]),
             ("bar", Json.jobj [("type", Json.js "number")])]) =
        .ok (bmid, elements) ∧
      elements.filterMap fieldSourceKey =
        (sortProps [.js "bar", .js "foo"]
          [("foo", Json.jobj [("type", Json.js "string")]),
           ("bar", Json.jobj [("type", Json.js "number")])]).map Prod.fst ∧
      (true = true →
        PyAst.classDef "TestType" ["JSONMixin"] ["dataclass_json", "dataclass"]
            [.annAssign "bar" (.pyName "float") none,
             .annAssign "foo" (.pyName "str") none] =
          .classDef "TestType" ["JSONMixin"] ["dataclass_json", "dataclass"]
            elements) :=
  C1_required_first_amended
    [("foo", Json.jobj [("type", Json.js "string")]),
     ("bar", Json.jobj [("type", Json.js "number")])]
    [.js "bar", .js "foo"] 1 {} _ "TestType"
    [("type", .js "object"),
     ("properties", .jobj [("foo", .jobj [("type", .js "string")]),
                           ("bar", .jobj [("type", .js "number")])]),
     ("required", .jarr [.js "bar", .js "foo"])]
    true
    (PyAst.classDef "TestType" ["JSONMixin"] ["dataclass_json", "dataclass"]
      [.annAssign "bar" (.pyName "float") none,
       .annAssign "foo" (.pyName "str") none])
    rfl rfl rfl rfl rfl

/-! ### C9 — when `from_file` raises

The claim lists: target not an existing file, not a zip (both filesystem
checks, outside the archive model), `document.json` missing or without a
`pages` list, or a referenced page member missing.  The code *also* raises
when `meta.json` or `user.json` is missing (and accepts some non-list
`pages` values, e.g. an empty dict), so the claim's "exactly when" fails. -/

def exceptIsOk {α : Type} : Except String α → Bool
  | .ok _ => true
  | .error _ => false

/-- the archive-level acceptance condition the claim describes -/
def claimAccepts (z : List (String × Json)) : Bool :=
  match zipRead? z "document.json" with
  | none => false
  | some d =>
      match d.get? "pages" with
      | some (.jarr elems) =>
          elems.all (fun page =>
            match page with
            | .jobj kvs =>
                match (Json.jobj kvs).get? "_ref" with
                | some r => (zipRead? z (r.pyStr ++ ".json")).isSome
                | none => false
            | _ => false)
      | _ => false

/-- per-page check of the model: entry is a dict with `_ref` whose member
exists -/
def pagePresent (z : List (String × Json)) (page : Json) : Bool :=
  match page with
  | .jobj kvs =>
      match (Json.jobj kvs).get? "_ref" with
      | some r => (zipRead? z (r.pyStr ++ ".json")).isSome
      | none => false
  | _ => false

/-- exactly when the modelled `from_file` succeeds -/
def modelAccepts (z : List (String × Json)) : Bool :=
  match zipRead? z "document.json" with
  | none => false
  | some d =>
      match d with
      | .jobj kvs =>
          match (Json.jobj kvs).get? "pages" with
          | none => false
          | some pv =>
              match pv.pyIter with
              | .error _ => false
              | .ok elems =>
                  elems.all (pagePresent z) &&
                    ((zipRead? z "meta.json").isSome &&
                      (zipRead? z "user.json").isSome)
      | _ => false

theorem except_bind_assoc {ε α β γ : Type} (m : Except ε α) (f : α → Except ε β)
    (g : β → Except ε γ) : ((m >>= f) >>= g) = m >>= fun a => (f a >>= g) := by
  cases m <;> rfl

theorem listAll_congr {α : Type} (p q : α → Bool)
    (l : List α) (h : ∀ a ∈ l, p a = q a) : l.all p = l.all q := by
  induction l with
  | nil => rfl
  | cons a as ih =>
      simp only [List.all_cons, h a (List.mem_cons_self a as),
        ih (fun b hb => h b (List.mem_cons_of_mem a hb))]

theorem readPageRef_isOk (z : List (String × Json)) (page : Json) :
    exceptIsOk (readPageRef z page) = pagePresent z page := by
  cases page <;> simp only [readPageRef, pagePresent, exceptIsOk]
  case jobj kvs =>
    cases hr : (Json.jobj kvs).get? "_ref" with
    | none => rfl
    | some r =>
        cases hm : zipRead? z (r.pyStr ++ ".json") <;>
          simp [readMember, hm, exceptIsOk]

theorem bind_exceptMapM_isOk {β : Type} (g : Json → Except String Json)
    (c : Bool) (k : List Json → Except String β)
    (hk : ∀ ys, exceptIsOk (k ys) = c) :
    ∀ elems : List Json,
      exceptIsOk (exceptMapM g elems >>= k) =
        (elems.all (fun e => exceptIsOk (g e)) && c) := by
  intro elems
  induction elems generalizing k with
  | nil =>
      simp only [exceptMapM, except_bind_ok, List.all_nil, Bool.true_and]
      exact hk []
  | cons e es ih =>
      show exceptIsOk ((g e >>= fun y =>
        exceptMapM g es >>= fun ys => Except.ok (y :: ys)) >>= k) = _
      cases hge : g e with
      | error msg =>
          rw [except_bind_assoc, except_bind_error]
          simp [exceptIsOk, hge]
      | ok y =>
          rw [except_bind_assoc, except_bind_ok, except_bind_assoc]
          have := ih (fun ys => Except.ok (y :: ys) >>= k) (fun ys => hk (y :: ys))
          rw [this]
          simp [hge, exceptIsOk, Bool.and_assoc]

/-- **C9 counterexample** — an archive holding only a valid `document.json`
with an (empty) `pages` list satisfies every acceptance condition the claim
lists, yet `from_file` raises (`meta.json` is missing), so the claim's
"for every input satisfying none of these conditions it returns a
SketchFile" is false. -/
theorem C9_counterexample_missing_meta :
    claimAccepts [("document.json", Json.jobj [("pages", Json.jarr [])])] = true ∧
    from_file "f.sketch" [("document.json", Json.jobj [("pages", Json.jarr [])])] =
      .error "KeyError: meta.json" :=
  ⟨rfl, rfl⟩

/-- **C9 (amended)** — `from_file` succeeds exactly when: `document.json` is
present, its payload is a dict with a `pages` key, the `pages` value is
iterable (a list, dict or string), every iterated entry is a dict with an
`_ref` whose `.json` member exists, and `meta.json` and `user.json` are both
present.  (Filesystem-level conditions — missing path, not a zip — precede
the archive model; member payloads are parsed JSON, so `json.loads` failures
are out of scope.) -/
theorem C9_from_file_accepts_iff (path : String) (z : List (String × Json)) :
    exceptIsOk (from_file path z) = modelAccepts z := by
  unfold from_file modelAccepts
  cases hdoc : zipRead? z "document.json" with
  | none =>
      simp only [readMember, hdoc, except_bind_error]
      rfl
  | some d =>
      simp only [readMember, hdoc, except_bind_ok]
      cases d <;> try (simp only [except_bind_error]; rfl)
      case jobj kvs =>
        cases hpg : (Json.jobj kvs).get? "pages" with
        | none => simp only [hpg, except_bind_error]; rfl
        | some pv =>
            simp only [hpg, except_bind_ok]
            cases hit : pv.pyIter with
            | error msg => simp only [hit, except_bind_error]; rfl
            | ok elems =>
                simp only [hit, except_bind_ok]
                rw [bind_exceptMapM_isOk (readPageRef z)
                  ((zipRead? z "meta.json").isSome && (zipRead? z "user.json").isSome)]
                · congr 1
                  exact listAll_congr _ _ elems (fun e _ => readPageRef_isOk z e)
                · intro ys
                  cases hmeta : zipRead? z "meta.json" with
                  | none =>
                      simp [readMember, hmeta, except_bind_error, exceptIsOk]
                  | some m =>
                      simp only [readMember, hmeta, except_bind_ok]
                      cases huser : zipRead? z "user.json" with
                      | none =>
                          simp [huser, except_bind_error, exceptIsOk]
                      | some u =>
                          simp [huser, except_bind_ok, exceptIsOk]

/-! ### C8 — write → read round trip

Helper facts about the member names `to_file` writes: the three fixed names,
`pages/<id>.json` and `workspace/<key>.json` live in disjoint namespaces
(distinct first characters), and page/workspace names are injective in the
id/key. -/

theorem ne_of_data_head_ne (a b : String) (h : a.data.head? ≠ b.data.head?) :
    a ≠ b :=
  fun he => h (congrArg (fun t : String => t.data.head?) he)

theorem head_pagesName (s t : String) :
    (("pages/" ++ s) ++ t).data.head? = some 'p' := rfl

theorem head_wsName (s t : String) :
    (("workspace/" ++ s) ++ t).data.head? = some 'w' := rfl

theorem isPrefixOf_self_append (l t : List Char) :
    l.isPrefixOf (l ++ t) = true := by
  induction l with
  | nil => simp [List.isPrefixOf]
  | cons a as ih => simp [List.isPrefixOf, ih]

theorem isPrefixOf_cons_ne (a b : Char) (as bs : List Char) (h : ¬ a = b) :
    List.isPrefixOf (a :: as) (b :: bs) = false := by
  simp [List.isPrefixOf, h]

theorem ws_not_prefix_of_pages (s t : String) :
    pyStartsWith (("pages/" ++ s) ++ t) "workspace/" = false := by
  unfold pyStartsWith
  exact isPrefixOf_cons_ne 'w' 'p' _ _ (by decide)

theorem ws_prefix_of_ws (s t : String) :
    pyStartsWith (("workspace/" ++ s) ++ t) "workspace/" = true := by
  unfold pyStartsWith
  have h : (("workspace/" ++ s) ++ t).data =
      "workspace/".data ++ (s.data ++ t.data) := by
    simp [String.data_append]
  rw [h]
  exact isPrefixOf_self_append _ _

theorem json_suffix_of_ws (s : String) :
    pyEndsWith (("workspace/" ++ s) ++ ".json") ".json" = true := by
  unfold pyEndsWith
  show List.isPrefixOf (".json".data.reverse)
    ((("workspace/" ++ s) ++ ".json").data.reverse) = true
  have h : (("workspace/" ++ s) ++ ".json").data.reverse =
      ".json".data.reverse ++ ("workspace/".data ++ s.data).reverse := by
    simp [String.data_append]
  rw [h]
  exact isPrefixOf_self_append _ _

theorem string_append_inj_mid (pre suf a b : String)
    (h : (pre ++ a) ++ suf = (pre ++ b) ++ suf) : a = b := by
  have h2 := congrArg String.data h
  simp only [String.data_append] at h2
  exact String.ext (List.append_cancel_left (List.append_cancel_right h2))

theorem basename_wsName (k : String) (hk : '/' ∉ k.data) :
    basename (("workspace/" ++ k) ++ ".json") = k ++ ".json" := by
  unfold basename
  have h : (("workspace/" ++ k) ++ ".json").data.reverse =
      (".json".data.reverse ++ k.data.reverse) ++ "workspace/".data.reverse := by
    simp [String.data_append]
  rw [h]
  have hall : ∀ c ∈ ".json".data.reverse ++ k.data.reverse,
      (fun c => !(c = '/')) c = true := by
    intro c hc
    simp only [Bool.not_eq_true']
    rcases List.mem_append.mp hc with h1 | h2
    · have h5 : c ∈ ['n', 'o', 's', 'j', '.'] := h1
      apply decide_eq_false
      intro hcc
      subst hcc
      exact absurd h5 (by decide)
    · have hcm : c ∈ k.data := List.mem_reverse.mp h2
      exact decide_eq_false (fun hcc => hk (hcc ▸ hcm))
  rw [List.takeWhile_append_of_pos hall]
  have hws : List.takeWhile (fun c => !(c = '/')) ("workspace/".data.reverse) = [] := rfl
  rw [hws, List.append_nil, List.reverse_append, List.reverse_reverse,
    List.reverse_reverse]
  apply String.ext
  show k.data ++ ".json".data = (k ++ ".json").data
  rw [String.data_append]

theorem stripLastSuffix_json (k : String) (hk0 : k ≠ "") :
    stripLastSuffix (k ++ ".json") = k := by
  have hklen : 0 < k.data.length := by
    rcases Nat.eq_zero_or_pos k.data.length with h0 | h
    · exact absurd (String.ext (List.eq_nil_of_length_eq_zero h0)) hk0
    · exact h
  have hdata : (k ++ ".json").data = k.data ++ ".json".data := by
    rw [String.data_append]
  have hrev : (k ++ ".json").data.reverse =
      'n' :: 'o' :: 's' :: 'j' :: '.' :: k.data.reverse := by
    rw [hdata, List.reverse_append]
    rfl
  have hfind : List.findIdx? (fun c => decide (c = '.'))
      ((k ++ ".json").data.reverse) = some 4 := by
    rw [hrev]
    simp [List.findIdx?_cons]
  have hlen : (k ++ ".json").data.length = k.data.length + 5 := by
    rw [hdata]
    simp
  have hlast : lastIdxWhere (fun c => decide (c = '.')) (k ++ ".json").data =
      some k.data.length := by
    unfold lastIdxWhere
    rw [hfind]
    show some ((k ++ ".json").data.length - 1 - 4) = some k.data.length
    rw [hlen]
    exact congrArg some (by omega)
  unfold stripLastSuffix
  rw [hlast]
  show (if 0 < k.data.length ∧ k.data.length < (k ++ ".json").data.length - 1 then
      String.mk ((k ++ ".json").data.take k.data.length)
    else (k ++ ".json")) = k
  rw [if_pos (by omega), hdata, List.take_left' rfl]

/-! Generic association-list and `setKey` facts used by the round trip. -/

theorem lookup_cons_self {α : Type} (k : String) (v : α) (l : List (String × α)) :
    ((k, v) :: l).lookup k = some v := by
  simp only [List.lookup, beq_self_eq_true]

theorem lookup_cons_of_ne {α : Type} (k k1 : String) (v : α) (l : List (String × α))
    (h : k ≠ k1) : ((k1, v) :: l).lookup k = l.lookup k := by
  have hb : (k == k1) = false := beq_eq_false_iff_ne.mpr h
  simp only [List.lookup, hb]

theorem lookup_append_some {α : Type} (l1 l2 : List (String × α)) (k : String) (v : α)
    (h : l1.lookup k = some v) : (l1 ++ l2).lookup k = some v := by
  induction l1 with
  | nil => exact Option.noConfusion h
  | cons p ps ih =>
      by_cases hpk : k = p.1
      · have hb : (k == p.1) = true := beq_iff_eq.mpr hpk
        simp only [List.lookup, hb] at h ⊢
        exact h
      · have hb : (k == p.1) = false := beq_eq_false_iff_ne.mpr hpk
        simp only [List.lookup, hb] at h ⊢
        exact ih h

/-- looking up `g p` in the graph of `g`/`v` over a list with duplicate-free
`g`-images yields `v p`. -/
theorem lookup_graph {α : Type} (g : α → String) (v : α → Json) (l : List α)
    (p : α) (hnd : (l.map g).Nodup) (hp : p ∈ l) :
    (l.map (fun q => (g q, v q))).lookup (g p) = some (v p) := by
  induction l with
  | nil => exact absurd hp (List.not_mem_nil p)
  | cons q rest ih =>
      simp only [List.map_cons] at hnd ⊢
      rcases List.mem_cons.mp hp with hq | hq
      · subst hq
        exact lookup_cons_self _ _ _
      · by_cases he : g p = g q
        · exfalso
          have hmem : g p ∈ rest.map g := List.mem_map_of_mem g hq
          rw [he] at hmem
          exact (List.nodup_cons.mp hnd).1 hmem
        · rw [lookup_cons_of_ne _ _ _ _ he]
          exact ih (List.nodup_cons.mp hnd).2 hq

theorem setKeyGo_lookup_self (kvs : List (String × Json)) (k : String) (v : Json) :
    (Json.setKey.go kvs k v).lookup k = some v := by
  induction kvs with
  | nil => exact lookup_cons_self k v []
  | cons p rest ih =>
      obtain ⟨k1, w⟩ := p
      by_cases hk : k1 = k
      · simp only [Json.setKey.go, if_pos hk]
        exact lookup_cons_self k v rest
      · simp only [Json.setKey.go, if_neg hk]
        rw [lookup_cons_of_ne _ _ _ _ (fun he => hk he.symm)]
        exact ih

theorem setKeyGo_overwrite (kvs : List (String × Json)) (k : String) (v1 v2 : Json) :
    Json.setKey.go (Json.setKey.go kvs k v1) k v2 = Json.setKey.go kvs k v2 := by
  induction kvs with
  | nil => simp [Json.setKey.go]
  | cons p rest ih =>
      obtain ⟨k1, w⟩ := p
      by_cases hk : k1 = k
      · simp [Json.setKey.go, hk]
      · simp [Json.setKey.go, hk, ih]

theorem setKeyGo_restore (kvs : List (String × Json)) (k : String) (v : Json)
    (h : kvs.lookup k = some v) : Json.setKey.go kvs k v = kvs := by
  induction kvs with
  | nil => exact Option.noConfusion h
  | cons p rest ih =>
      obtain ⟨k1, w⟩ := p
      by_cases hk : k1 = k
      · subst hk
        rw [lookup_cons_self] at h
        have hw : w = v := Option.some.inj h
        simp [Json.setKey.go, hw]
      · rw [lookup_cons_of_ne _ _ _ _ (fun he => hk he.symm)] at h
        simp [Json.setKey.go, hk, ih h]

theorem foldl_upsert_eq_append (l : List (String × Json)) (hnd : (l.map Prod.fst).Nodup) :
    ∀ acc : List (String × Json), (∀ kv ∈ l, acc.lookup kv.1 = none) →
      l.foldl (fun a kv => upsert a kv.1 kv.2) acc = acc ++ l := by
  induction l with
  | nil =>
      intro acc _
      exact (List.append_nil acc).symm
  | cons kv rest ih =>
      intro acc hacc
      simp only [List.map_cons] at hnd
      have hnd2 := List.nodup_cons.mp hnd
      simp only [List.foldl_cons]
      rw [upsert_eq_append acc kv.1 kv.2 (hacc kv (List.mem_cons_self kv rest))]
      have hacc2 : ∀ q ∈ rest, (acc ++ [(kv.1, kv.2)]).lookup q.1 = none := by
        intro q hq
        rw [lookup_append_none acc _ q.1 (hacc q (List.mem_cons_of_mem kv hq))]
        apply lookup_eq_none_of_forall_ne
        intro p hp
        have hp1 : p = (kv.1, kv.2) := by simpa using hp
        subst hp1
        intro he
        exact hnd2.1 (he ▸ List.mem_map_of_mem Prod.fst hq)
      rw [ih hnd2.2 (acc ++ [(kv.1, kv.2)]) hacc2, List.append_assoc]
      rfl

theorem pyDictOfList_eq_self (l : List (String × Json))
    (hnd : (l.map Prod.fst).Nodup) : pyDictOfList l = l := by
  unfold pyDictOfList
  rw [foldl_upsert_eq_append l hnd [] (fun kv _ => rfl)]
  rfl

theorem exceptMapM_map_ok (g : Json → Except String Json) (f : Json → Json)
    (l : List Json) (h : ∀ p ∈ l, g (f p) = .ok p) :
    exceptMapM g (l.map f) = .ok l := by
  induction l with
  | nil => rfl
  | cons p rest ih =>
      simp only [List.map_cons, exceptMapM]
      rw [h p (List.mem_cons_self p rest), except_bind_ok,
        ih (fun q hq => h q (List.mem_cons_of_mem p hq)), except_bind_ok]

/-! Reading back the members `to_file` wrote.  The archive has the shape
`pageMembers ++ wsMembers ++ [document.json, user.json, meta.json]` and
`zipRead?` takes the last entry with a given name. -/

theorem pageName_inj : Function.Injective (fun s : String => ("pages/" ++ s) ++ ".json") :=
  fun a b h => string_append_inj_mid "pages/" ".json" a b h

theorem wsName_inj :
    Function.Injective (fun s : String => ("workspace/" ++ s) ++ ".json") :=
  fun a b h => string_append_inj_mid "workspace/" ".json" a b h

theorem nodup_pageNames (pages : List Json) (hnd : (pages.map pageDoId).Nodup) :
    (pages.map (fun q => ("pages/" ++ pageDoId q) ++ ".json")).Nodup := by
  have h : pages.map (fun q => ("pages/" ++ pageDoId q) ++ ".json") =
      (pages.map pageDoId).map (fun s => ("pages/" ++ s) ++ ".json") := by
    rw [List.map_map]
    rfl
  rw [h]
  exact List.Nodup.map pageName_inj hnd

theorem nodup_wsNames (ws : List (String × Json)) (hws : (ws.map Prod.fst).Nodup) :
    (ws.map (fun kv => ("workspace/" ++ kv.1) ++ ".json")).Nodup := by
  have h : ws.map (fun kv => ("workspace/" ++ kv.1) ++ ".json") =
      (ws.map Prod.fst).map (fun s => ("workspace/" ++ s) ++ ".json") := by
    rw [List.map_map]
    rfl
  rw [h]
  exact List.Nodup.map wsName_inj hws

theorem zipRead_fixed_doc (Pm Wm : List (String × Json)) (d u m : Json) :
    zipRead? (Pm ++ Wm ++ [("document.json", d), ("user.json", u), ("meta.json", m)])
      "document.json" = some d := by
  unfold zipRead?
  rw [List.reverse_append, List.reverse_append]
  show (("meta.json", m) :: ("user.json", u) :: ("document.json", d) ::
      (Wm.reverse ++ Pm.reverse)).lookup "document.json" = some d
  rw [lookup_cons_of_ne _ _ _ _ (by decide), lookup_cons_of_ne _ _ _ _ (by decide)]
  exact lookup_cons_self _ _ _

theorem zipRead_fixed_user (Pm Wm : List (String × Json)) (d u m : Json) :
    zipRead? (Pm ++ Wm ++ [("document.json", d), ("user.json", u), ("meta.json", m)])
      "user.json" = some u := by
  unfold zipRead?
  rw [List.reverse_append, List.reverse_append]
  show (("meta.json", m) :: ("user.json", u) :: ("document.json", d) ::
      (Wm.reverse ++ Pm.reverse)).lookup "user.json" = some u
  rw [lookup_cons_of_ne _ _ _ _ (by decide)]
  exact lookup_cons_self _ _ _

theorem zipRead_fixed_meta (Pm Wm : List (String × Json)) (d u m : Json) :
    zipRead? (Pm ++ Wm ++ [("document.json", d), ("user.json", u), ("meta.json", m)])
      "meta.json" = some m := by
  unfold zipRead?
  rw [List.reverse_append, List.reverse_append]
  show (("meta.json", m) :: ("user.json", u) :: ("document.json", d) ::
      (Wm.reverse ++ Pm.reverse)).lookup "meta.json" = some m
  exact lookup_cons_self _ _ _

theorem zipRead_page_member (pages : List Json) (ws : List (String × Json))
    (d u m : Json) (hnd : (pages.map pageDoId).Nodup) (p : Json) (hp : p ∈ pages) :
    zipRead? (pages.map (fun q => (("pages/" ++ pageDoId q) ++ ".json", q)) ++
        ws.map (fun kv => (("workspace/" ++ kv.1) ++ ".json", kv.2)) ++
        [("document.json", d), ("user.json", u), ("meta.json", m)])
      (("pages/" ++ pageDoId p) ++ ".json") = some p := by
  unfold zipRead?
  rw [List.reverse_append, List.reverse_append]
  show (("meta.json", m) :: ("user.json", u) :: ("document.json", d) ::
      ((ws.map (fun kv => (("workspace/" ++ kv.1) ++ ".json", kv.2))).reverse ++
       (pages.map (fun q => (("pages/" ++ pageDoId q) ++ ".json", q))).reverse)).lookup
      (("pages/" ++ pageDoId p) ++ ".json") = some p
  rw [lookup_cons_of_ne _ _ _ _
        (ne_of_data_head_ne _ _ (by rw [head_pagesName]; decide)),
      lookup_cons_of_ne _ _ _ _
        (ne_of_data_head_ne _ _ (by rw [head_pagesName]; decide)),
      lookup_cons_of_ne _ _ _ _
        (ne_of_data_head_ne _ _ (by rw [head_pagesName]; decide))]
  have hwsnone : ((ws.map (fun kv => (("workspace/" ++ kv.1) ++ ".json", kv.2))).reverse).lookup
      (("pages/" ++ pageDoId p) ++ ".json") = none := by
    apply lookup_eq_none_of_forall_ne
    intro q hq
    obtain ⟨kv, hkv, hkveq⟩ := List.mem_map.mp (List.mem_reverse.mp hq)
    rw [← hkveq]
    exact ne_of_data_head_ne _ _ (by rw [head_wsName, head_pagesName]; decide)
  rw [lookup_append_none _ _ _ hwsnone, ← List.map_reverse]
  exact lookup_graph (fun q => ("pages/" ++ pageDoId q) ++ ".json") (fun q => q)
    pages.reverse p
    (by rw [List.map_reverse]
        exact List.nodup_reverse.mpr (nodup_pageNames pages hnd))
    (List.mem_reverse.mpr hp)

theorem zipRead_ws_member (pages : List Json) (ws : List (String × Json))
    (d u m : Json) (hws : (ws.map Prod.fst).Nodup) (kv : String × Json)
    (hkv : kv ∈ ws) :
    zipRead? (pages.map (fun q => (("pages/" ++ pageDoId q) ++ ".json", q)) ++
        ws.map (fun kv2 => (("workspace/" ++ kv2.1) ++ ".json", kv2.2)) ++
        [("document.json", d), ("user.json", u), ("meta.json", m)])
      (("workspace/" ++ kv.1) ++ ".json") = some kv.2 := by
  unfold zipRead?
  rw [List.reverse_append, List.reverse_append]
  show (("meta.json", m) :: ("user.json", u) :: ("document.json", d) ::
      ((ws.map (fun kv2 => (("workspace/" ++ kv2.1) ++ ".json", kv2.2))).reverse ++
       (pages.map (fun q => (("pages/" ++ pageDoId q) ++ ".json", q))).reverse)).lookup
      (("workspace/" ++ kv.1) ++ ".json") = some kv.2
  rw [lookup_cons_of_ne _ _ _ _
        (ne_of_data_head_ne _ _ (by rw [head_wsName]; decide)),
      lookup_cons_of_ne _ _ _ _
        (ne_of_data_head_ne _ _ (by rw [head_wsName]; decide)),
      lookup_cons_of_ne _ _ _ _
        (ne_of_data_head_ne _ _ (by rw [head_wsName]; decide))]
  apply lookup_append_some
  rw [← List.map_reverse]
  exact lookup_graph (fun kv2 => ("workspace/" ++ kv2.1) ++ ".json") Prod.snd
    ws.reverse kv
    (by rw [List.map_reverse]
        exact List.nodup_reverse.mpr (nodup_wsNames ws hws))
    (List.mem_reverse.mpr hkv)

theorem readPageRef_fileRef (z : List (String × Json)) (p : Json) (ref : String)
    (h : zipRead? z (ref ++ ".json") = some p) :
    readPageRef z (fileRefDict ref) = .ok p := by
  show readMember z (ref ++ ".json") "KeyError: page member missing" = Except.ok p
  unfold readMember
  rw [h]

theorem zipNames_filter_ws (pages : List Json) (ws : List (String × Json))
    (d u m : Json) :
    ((zipNames (pages.map (fun q => (("pages/" ++ pageDoId q) ++ ".json", q)) ++
        ws.map (fun kv => (("workspace/" ++ kv.1) ++ ".json", kv.2)) ++
        [("document.json", d), ("user.json", u), ("meta.json", m)])).filter
      (fun n => pyStartsWith n "workspace/" && pyEndsWith n ".json")) =
    ws.map (fun kv => ("workspace/" ++ kv.1) ++ ".json") := by
  unfold zipNames
  rw [List.map_append, List.map_append]
  have hc : ([("document.json", d), ("user.json", u),
      ("meta.json", m)] : List (String × Json)).map Prod.fst =
      ["document.json", "user.json", "meta.json"] := rfl
  rw [hc, List.filter_append, List.filter_append]
  have h1 : ((pages.map (fun q => (("pages/" ++ pageDoId q) ++ ".json", q))).map
      Prod.fst).filter
      (fun n => pyStartsWith n "workspace/" && pyEndsWith n ".json") = [] := by
    apply List.filter_eq_nil_iff.mpr
    intro a ha
    obtain ⟨pr, hpr, hpreq⟩ := List.mem_map.mp ha
    obtain ⟨q, hq, hqeq⟩ := List.mem_map.mp hpr
    rw [← hpreq, ← hqeq]
    simp [ws_not_prefix_of_pages]
  have h2 : ((ws.map (fun kv => (("workspace/" ++ kv.1) ++ ".json", kv.2))).map
      Prod.fst).filter
      (fun n => pyStartsWith n "workspace/" && pyEndsWith n ".json") =
      ws.map (fun kv => ("workspace/" ++ kv.1) ++ ".json") := by
    have hm : (ws.map (fun kv => (("workspace/" ++ kv.1) ++ ".json", kv.2))).map
        Prod.fst = ws.map (fun kv => ("workspace/" ++ kv.1) ++ ".json") := by
      rw [List.map_map]
      rfl
    rw [hm]
    apply List.filter_eq_self.mpr
    intro a ha
    obtain ⟨kv, hkv, hkveq⟩ := List.mem_map.mp ha
    rw [← hkveq]
    simp [ws_prefix_of_ws, json_suffix_of_ws]
  have h3 : (["document.json", "user.json", "meta.json"].filter
      (fun n => pyStartsWith n "workspace/" && pyEndsWith n ".json")) = [] := by
    decide
  rw [h1, h2, h3, List.nil_append, List.append_nil]

/-- reading a written archive back: the core computation behind the round
trip, on the explicit member list `to_file` produces. -/
theorem from_file_write_read (path : String) (dkvs : List (String × Json))
    (pages : List Json) (mta usr : Json) (ws : List (String × Json))
    (hpages : dkvs.lookup "pages" = some (Json.jarr pages))
    (hnd : (pages.map pageDoId).Nodup)
    (hws : (ws.map Prod.fst).Nodup)
    (hkeys : ∀ k ∈ ws.map Prod.fst, ¬ k = "" ∧ '/' ∉ k.data) :
    from_file path
      (pages.map (fun q => (("pages/" ++ pageDoId q) ++ ".json", q)) ++
       ws.map (fun kv => (("workspace/" ++ kv.1) ++ ".json", kv.2)) ++
       [("document.json", Json.jobj (Json.setKey.go dkvs "pages"
           (Json.jarr (pages.map (fun q => fileRefDict ("pages/" ++ pageDoId q)))))),
        ("user.json", usr), ("meta.json", mta)]) =
    .ok { filepath := path,
          contents := { document := Json.jobj dkvs, meta := mta, user := usr,
                        workspace := ws } } := by
  have h1 := zipRead_fixed_doc
    (pages.map (fun q => (("pages/" ++ pageDoId q) ++ ".json", q)))
    (ws.map (fun kv => (("workspace/" ++ kv.1) ++ ".json", kv.2)))
    (Json.jobj (Json.setKey.go dkvs "pages"
      (Json.jarr (pages.map (fun q => fileRefDict ("pages/" ++ pageDoId q))))))
    usr mta
  have h2 := zipRead_fixed_user
    (pages.map (fun q => (("pages/" ++ pageDoId q) ++ ".json", q)))
    (ws.map (fun kv => (("workspace/" ++ kv.1) ++ ".json", kv.2)))
    (Json.jobj (Json.setKey.go dkvs "pages"
      (Json.jarr (pages.map (fun q => fileRefDict ("pages/" ++ pageDoId q))))))
    usr mta
  have h3 := zipRead_fixed_meta
    (pages.map (fun q => (("pages/" ++ pageDoId q) ++ ".json", q)))
    (ws.map (fun kv => (("workspace/" ++ kv.1) ++ ".json", kv.2)))
    (Json.jobj (Json.setKey.go dkvs "pages"
      (Json.jarr (pages.map (fun q => fileRefDict ("pages/" ++ pageDoId q))))))
    usr mta
  have hmapM : exceptMapM (readPageRef
      (pages.map (fun q => (("pages/" ++ pageDoId q) ++ ".json", q)) ++
       ws.map (fun kv => (("workspace/" ++ kv.1) ++ ".json", kv.2)) ++
       [("document.json", Json.jobj (Json.setKey.go dkvs "pages"
           (Json.jarr (pages.map (fun q => fileRefDict ("pages/" ++ pageDoId q)))))),
        ("user.json", usr), ("meta.json", mta)]))
      (pages.map (fun q => fileRefDict ("pages/" ++ pageDoId q))) = .ok pages :=
    exceptMapM_map_ok _ _ pages (fun p hp =>
      readPageRef_fileRef _ p ("pages/" ++ pageDoId p)
        (zipRead_page_member pages ws _ usr mta hnd p hp))
  have hwsmap : (ws.map (fun kv => ("workspace/" ++ kv.1) ++ ".json")).map
      (fun n => (stripLastSuffix (basename n),
        (zipRead? (pages.map (fun q => (("pages/" ++ pageDoId q) ++ ".json", q)) ++
           ws.map (fun kv => (("workspace/" ++ kv.1) ++ ".json", kv.2)) ++
           [("document.json", Json.jobj (Json.setKey.go dkvs "pages"
               (Json.jarr (pages.map (fun q => fileRefDict ("pages/" ++ pageDoId q)))))),
            ("user.json", usr), ("meta.json", mta)]) n).getD Json.null)) = ws := by
    rw [List.map_map]
    have hpt : ∀ kv ∈ ws, ((fun n => (stripLastSuffix (basename n),
        (zipRead? (pages.map (fun q => (("pages/" ++ pageDoId q) ++ ".json", q)) ++
           ws.map (fun kv2 => (("workspace/" ++ kv2.1) ++ ".json", kv2.2)) ++
           [("document.json", Json.jobj (Json.setKey.go dkvs "pages"
               (Json.jarr (pages.map (fun q => fileRefDict ("pages/" ++ pageDoId q)))))),
            ("user.json", usr), ("meta.json", mta)]) n).getD Json.null)) ∘
        (fun kv2 => ("workspace/" ++ kv2.1) ++ ".json")) kv = kv := by
      intro kv hkv
      have hk := hkeys kv.1 (List.mem_map_of_mem Prod.fst hkv)
      show (stripLastSuffix (basename (("workspace/" ++ kv.1) ++ ".json")),
        (zipRead? (pages.map (fun q => (("pages/" ++ pageDoId q) ++ ".json", q)) ++
           ws.map (fun kv2 => (("workspace/" ++ kv2.1) ++ ".json", kv2.2)) ++
           [("document.json", Json.jobj (Json.setKey.go dkvs "pages"
               (Json.jarr (pages.map (fun q => fileRefDict ("pages/" ++ pageDoId q)))))),
            ("user.json", usr), ("meta.json", mta)])
          (("workspace/" ++ kv.1) ++ ".json")).getD Json.null) = kv
      rw [basename_wsName kv.1 hk.2, stripLastSuffix_json kv.1 hk.1,
        zipRead_ws_member pages ws _ usr mta hws kv hkv]
      rfl
    exact (List.map_congr_left hpt).trans (List.map_id ws)
  have hpd : pyDictOfList ws = ws := pyDictOfList_eq_self ws hws
  have hrestore : Json.setKey.go dkvs "pages" (Json.jarr pages) = dkvs :=
    setKeyGo_restore dkvs "pages" (Json.jarr pages) hpages
  simp only [from_file, readMember, h1, h2, h3, except_bind_ok, Json.get?,
    setKeyGo_lookup_self, Json.pyIter, hmapM, Json.setKey, setKeyGo_overwrite,
    hrestore, zipNames_filter_ws, hwsmap, hpd]

/-- **C8** — amended write → read round trip.  For a file whose document is a
dict with a `pages` list, whose pages carry pairwise-distinct `do_objectID`s,
and whose workspace keys are duplicate-free, non-empty and slash-free,
`to_file` followed by `from_file` restores the document, meta, user, the
workspace mapping and every page (hence every page's `do_objectID`) exactly.
The distinct-`do_objectID` hypothesis is necessary: `to_file` names page
members `pages/<do_objectID>.json`, duplicate ids collapse onto one member
name, and `ZipFile.read` returns the last entry with that name (see the
counterexample). -/
theorem C8_round_trip_amended (path : String) (f : SketchFile)
    (dkvs : List (String × Json)) (pages : List Json)
    (hdoc : f.contents.document = Json.jobj dkvs)
    (hpages : dkvs.lookup "pages" = some (Json.jarr pages))
    (hnd : (pages.map pageDoId).Nodup)
    (hws : (f.contents.workspace.map Prod.fst).Nodup)
    (hkeys : ∀ k ∈ f.contents.workspace.map Prod.fst, ¬ k = "" ∧ '/' ∉ k.data) :
    from_file path (to_file f) =
      .ok { filepath := path, contents := f.contents } := by
  obtain ⟨fp, c⟩ := f
  obtain ⟨doc, mta, usr, ws⟩ := c
  have hdoc2 : doc = Json.jobj dkvs := hdoc
  subst hdoc2
  have hdp : docPages (Json.jobj dkvs) = pages := by
    unfold docPages
    rw [show (Json.jobj dkvs).get? "pages" = some (Json.jarr pages) from hpages]
  have hzf : to_file ⟨fp, ⟨Json.jobj dkvs, mta, usr, ws⟩⟩ =
      pages.map (fun q => (("pages/" ++ pageDoId q) ++ ".json", q)) ++
      ws.map (fun kv => (("workspace/" ++ kv.1) ++ ".json", kv.2)) ++
      [("document.json", Json.jobj (Json.setKey.go dkvs "pages"
          (Json.jarr (pages.map (fun q => fileRefDict ("pages/" ++ pageDoId q)))))),
       ("user.json", usr), ("meta.json", mta)] := by
    show (docPages (Json.jobj dkvs)).map
        (fun q => (("pages/" ++ pageDoId q) ++ ".json", q)) ++
        ws.map (fun kv => (("workspace/" ++ kv.1) ++ ".json", kv.2)) ++
        [("document.json", Json.jobj (Json.setKey.go dkvs "pages"
            (Json.jarr ((docPages (Json.jobj dkvs)).map
              (fun q => fileRefDict ("pages/" ++ pageDoId q)))))),
         ("user.json", usr), ("meta.json", mta)] = _
    rw [hdp]
  rw [hzf]
  exact from_file_write_read path dkvs pages mta usr ws hpages hnd
    (show (ws.map Prod.fst).Nodup from hws)
    (show ∀ k ∈ ws.map Prod.fst, ¬ k = "" ∧ '/' ∉ k.data from hkeys)

/-- a read → write → read chain on an opened archive. -/
def roundTrip (path : String) (z : List (String × Json)) : Except String SketchFile :=
  match from_file path z with
  | .ok f => from_file path (to_file f)
  | .error e => .error e

/-- the `v` entry of each page of the result, as text (`[error]` on failure):
the observation separating the two sides of the round trip. -/
def pagesVObs (r : Except String SketchFile) : List String :=
  match r with
  | .ok f => (docPages f.contents.document).map
      (fun p => ((p.get? "v").getD Json.null).pyStr)
  | .error e => [e]

/-- an archive the reader accepts whose two pages share `do_objectID` `X`. -/
def zf8 : List (String × Json) :=
  [("document.json", .jobj [("pages", .jarr
      [.jobj [("_ref", .js "pages/A")], .jobj [("_ref", .js "pages/B")]])]),
   ("pages/A.json", .jobj [("do_objectID", .js "X"), ("v", .ji 1)]),
   ("pages/B.json", .jobj [("do_objectID", .js "X"), ("v", .ji 2)]),
   ("meta.json", .jobj []),
   ("user.json", .jobj [])]

/-- the claim as stated fails: `zf8` is accepted by the reader (its pages
carry `v` values `1` and `2`), yet writing the result with `to_file` and
reading it back yields `v` values `2`, `2` — both page members were written
under the name `pages/X.json` and `ZipFile.read` returns the last entry, so
the first page's contents are lost. -/
theorem C8_counterexample_duplicate_page_ids :
    pagesVObs (from_file "f.sketch" zf8) = ["1", "2"] ∧
    pagesVObs (roundTrip "f.sketch" zf8) = ["2", "2"] := ⟨rfl, rfl⟩

/-- the document of the witness file below. -/
def doc8w : List (String × Json) :=
  [("pages", .jarr
      [.jobj [("do_objectID", .js "A"), ("v", .ji 1)],
       .jobj [("do_objectID", .js "B"), ("v", .ji 2)]]),
   ("do_objectID", .js "D")]

/-- a concrete file meeting the amended theorem's hypotheses. -/
def f8w : SketchFile :=
  { filepath := "orig.sketch",
    contents := { document := .jobj doc8w,
                  meta := .jobj [("ver", .ji 1)],
                  user := .jobj [],
                  workspace := [("w1", .ji 7), ("w2", .js "z")] } }

/-- Witness for C8 at a concrete file with distinct page ids. -/
theorem C8_round_trip_amended_witness :
    from_file "out.sketch" (to_file f8w) =
      .ok { filepath := "out.sketch", contents := f8w.contents } :=
  C8_round_trip_amended "out.sketch" f8w doc8w
    [.jobj [("do_objectID", .js "A"), ("v", .ji 1)],
     .jobj [("do_objectID", .js "B"), ("v", .ji 2)]]
    rfl rfl (by decide) (by decide) (by decide)

end SketchPy
